import Mathlib

/-!
Per-symbol ledgers and the order table of the OrderBook repository

A shallow embedding of `src/order_book.hpp` (classes `Order`, `OrderBook`,
`OrderTable`) and of the decoding and filtering members of `DataParser` in
`src/data_extractor.hpp`.

Modelling conventions.

* `std::chrono::system_clock::time_point` is represented by its whole number of
  seconds since the epoch (`Int`).  Every time point of the program is built by
  `DataParser::createTimePoint`, which adds whole hours and whole seconds to the
  epoch, so `duration_cast<seconds>` of a difference of two time points is the
  exact difference.  The default-constructed `time_point()` is the epoch, `0`.
* `std::chrono::seconds` is `Int`.
* `double` is represented by exact rationals `ℚ`; rounding is not modelled.
* `unsigned int` volumes are `Nat`; `int` counters are `Int`, without wrap-around.
* `std::vector` is `List` (`push_back` appends at the end), `std::stack` is
  `List` with the top at the head.
* `std::map<std::string, OrderBook>` is an association list kept in ascending
  key order, which is the iteration order of the map.
* A member function that mutates the object takes the object and returns the
  new object (together with its return value when it has one).
* `std::string` is `String`, searched and cut as its list of characters; a thrown
  exception is the result `none`.
* The value of an uninitialized variable is an extra argument of the function that
  reads it; for the enumeration type it ranges over the enumerators and
  `UpdateType.Other`.
-/

namespace OrderBookModel

/-- The `enum class UpdateType`. An object of the type can hold any value of the
underlying type `int`: `Other` stands for the values that are none of the three
enumerators, which in this program only an uninitialized variable can hold (the local
of `process_type`). Such a value compares unequal to each enumerator. -/
inductive UpdateType where
  | Trade
  | ChangeToBid
  | ChangeToAsk
  | Other
  deriving DecidableEq, Repr

/-- Time points, as whole seconds since the epoch. -/
abbrev time_point := Int

/-- The type `std::chrono::seconds`. -/
abbrev seconds := Int

/-- The default-constructed `std::chrono::system_clock::time_point()`. -/
def time_point_default : time_point := 0

/-- The class `Order`. -/
structure Order where
  symbol : String
  bid_price : ℚ
  ask_price : ℚ
  trade_price : ℚ
  bid_volume : Nat
  ask_volume : Nat
  trade_volume : Nat
  condition_code : String
  type : UpdateType
  date : String
  time : time_point
  deriving DecidableEq

namespace Order

def getSymbol (o : Order) : String := o.symbol
@[simp] def getBidPrice (o : Order) : ℚ := o.bid_price
@[simp] def getAskPrice (o : Order) : ℚ := o.ask_price
@[simp] def getBidAskSpread (o : Order) : ℚ := o.ask_price - o.bid_price
@[simp] def getTimePoint (o : Order) : time_point := o.time
@[simp] def getType (o : Order) : UpdateType := o.type

end Order

/-- The class `OrderBook`: the list of the orders of one symbol with its statistics. -/
structure OrderBook where
  symbol : String
  orders : List Order
  mean_time_trades : ℚ
  median_time_trades : ℚ
  longest_time_trades : ℚ
  mean_time_tick : ℚ
  median_time_tick : ℚ
  longest_time_tick : ℚ
  mean_spread : ℚ
  median_spread : ℚ
  timeDifferences : List seconds
  previousTradeTime : time_point
  timeTickDifferences : List seconds
  bidPrices : List (ℚ × Order)
  askPrices : List (ℚ × Order)
  spreadList : List ℚ
  deriving DecidableEq

/-- The call `std::sort(v.begin(), v.end())` on a vector of seconds. -/
def sortSeconds (v : List seconds) : List seconds :=
  v.insertionSort (fun a b => a ≤ b)

/-- The call `std::sort(v.begin(), v.end())` on a vector of doubles. -/
def sortDoubles (v : List ℚ) : List ℚ :=
  v.insertionSort (fun a b => a ≤ b)

namespace OrderBook

/-- The overload `get_mean(std::vector<std::chrono::seconds>)`. -/
def get_mean (time_diff : List seconds) : ℚ :=
  let sumTimeDifferences : seconds := time_diff.foldl (fun acc d => acc + d) 0
  if time_diff.isEmpty then 0
  else (sumTimeDifferences : ℚ) / (time_diff.length : ℚ)

/-- The overload `get_median(std::vector<std::chrono::seconds>)`. -/
def get_median (time_diff : List seconds) : ℚ :=
  if time_diff.isEmpty then 0
  else
    let sorted := sortSeconds time_diff
    if sorted.length % 2 = 0 then
      ((sorted.getD (sorted.length / 2 - 1) 0 + sorted.getD (sorted.length / 2) 0 : Int) : ℚ) / 2
    else
      ((sorted.getD (sorted.length / 2) 0 : Int) : ℚ)

/-- The function `get_largest`: the last element of the sorted vector, `0` when empty. -/
def get_largest (time_diff : List seconds) : ℚ :=
  let sorted := sortSeconds time_diff
  match sorted.getLast? with
  | some d => ((d : Int) : ℚ)
  | none => 0

/-- The overload `get_mean(const std::vector<double>&)`. -/
def get_mean_spread_of (spreads : List ℚ) : ℚ :=
  if spreads.isEmpty then 0
  else
    let sum : ℚ := spreads.foldl (fun acc s => acc + s) 0
    sum / (spreads.length : ℚ)

/-- The overload `get_median(std::vector<double>)`. -/
def get_median_spread_of (spreads : List ℚ) : ℚ :=
  if spreads.isEmpty then 0
  else
    let sorted := sortDoubles spreads
    if sorted.length % 2 = 0 then
      (sorted.getD (sorted.length / 2 - 1) 0 + sorted.getD (sorted.length / 2) 0) / 2
    else
      sorted.getD (sorted.length / 2) 0

/-- The constructor `OrderBook(const std::string& symbol)`. -/
def new (symbol : String) : OrderBook :=
  { symbol := symbol
    orders := []
    mean_time_trades := 0
    median_time_trades := 0
    longest_time_trades := 0
    mean_time_tick := 0
    median_time_tick := 0
    longest_time_tick := 0
    mean_spread := 0
    median_spread := 0
    timeDifferences := []
    previousTradeTime := time_point_default
    timeTickDifferences := []
    bidPrices := []
    askPrices := []
    spreadList := [] }

/-- The member `getTimeDifferencesTrade`: the time difference between consecutive
`Trade` orders. Returns the updated book and the returned vector. -/
def getTimeDifferencesTrade (b : OrderBook) (order : Order) : OrderBook × List seconds :=
  if order.getType = UpdateType.Trade then
    let b1 : OrderBook :=
      if b.previousTradeTime ≠ time_point_default then
        let timeDifference : seconds := order.getTimePoint - b.previousTradeTime
        { b with timeDifferences := b.timeDifferences ++ [timeDifference] }
      else b
    let b2 : OrderBook := { b1 with previousTradeTime := order.getTimePoint }
    (b2, b2.timeDifferences)
  else (b, b.timeDifferences)

/-- The member `getTickTimeDifferences`. Returns the updated book and the returned
vector. -/
def getTickTimeDifferences (b : OrderBook) (order : Order) : OrderBook × List seconds :=
  if order.getType = UpdateType.ChangeToBid then
    match b.bidPrices with
    | top :: _ =>
      if order.getBidPrice = top.1 then (b, b.timeTickDifferences)
      else
        let timeDiff : seconds := order.getTimePoint - top.2.getTimePoint
        let b1 : OrderBook := { b with timeTickDifferences := b.timeTickDifferences ++ [timeDiff] }
        let b2 : OrderBook := { b1 with bidPrices := (order.getBidPrice, order) :: b1.bidPrices }
        (b2, b2.timeTickDifferences)
    | [] =>
      let b2 : OrderBook := { b with bidPrices := (order.getBidPrice, order) :: b.bidPrices }
      (b2, b2.timeTickDifferences)
  else if order.getType = UpdateType.ChangeToAsk then
    match b.askPrices with
    | top :: _ =>
      if order.getBidPrice = top.1 then (b, b.timeTickDifferences)
      else
        let timeDiff : seconds := order.getTimePoint - top.2.getTimePoint
        let b1 : OrderBook := { b with timeTickDifferences := b.timeTickDifferences ++ [timeDiff] }
        let b2 : OrderBook := { b1 with askPrices := (order.getBidPrice, order) :: b1.askPrices }
        (b2, b2.timeTickDifferences)
    | [] =>
      let b2 : OrderBook := { b with askPrices := (order.getBidPrice, order) :: b.askPrices }
      (b2, b2.timeTickDifferences)
  else (b, b.timeTickDifferences)

/-- The member `getBidAskSpreadList`. Returns the updated book and the returned vector. -/
def getBidAskSpreadList (b : OrderBook) (order : Order) : OrderBook × List ℚ :=
  let spread : ℚ := order.getAskPrice - order.getBidPrice
  let b1 : OrderBook := { b with spreadList := b.spreadList ++ [spread] }
  (b1, b1.spreadList)

/-- The member `analyze`: the order of the statistical analysis over the orders. -/
def analyze (b : OrderBook) (order : Order) : OrderBook :=
  let r1 := getTimeDifferencesTrade b order
  let b1 : OrderBook :=
    { r1.1 with
      mean_time_trades := get_mean r1.2
      median_time_trades := get_median r1.2
      longest_time_trades := get_largest r1.2 }
  let r2 := getTickTimeDifferences b1 order
  let b2 : OrderBook :=
    { r2.1 with
      mean_time_tick := get_mean r2.2
      median_time_tick := get_median r2.2
      longest_time_tick := get_largest r2.2 }
  let r3 := getBidAskSpreadList b2 order
  { r3.1 with
    mean_spread := get_mean_spread_of r3.2
    median_spread := get_median_spread_of r3.2 }

/-- The member `addOrder`. -/
def addOrder (b : OrderBook) (order : Order) : OrderBook :=
  analyze { b with orders := b.orders ++ [order] } order

/-- The member `get_orders_num`. -/
def get_orders_num (b : OrderBook) : Int := (b.orders.length : Int)

def get_longest_time_trades (b : OrderBook) : ℚ := b.longest_time_trades
def get_longest_time_tick (b : OrderBook) : ℚ := b.longest_time_tick

/-- Feeding a sequence of orders to `addOrder`, first to last. -/
def addOrders (b : OrderBook) (os : List Order) : OrderBook :=
  os.foldl addOrder b

end OrderBook

/-! ## The order table -/

/-- The call `table.find(symbol)` on the entries of the map: the book stored under the
key, if any. -/
def mapFind : List (String × OrderBook) → String → Option OrderBook
  | [], _ => none
  | (k, v) :: rest, symbol => if symbol = k then some v else mapFind rest symbol

/-- The call `table.insert(std::make_pair(symbol, book))`: the entry is placed at its
position in key order; an entry already stored under the key is kept. -/
def mapInsert : List (String × OrderBook) → String → OrderBook → List (String × OrderBook)
  | [], symbol, book => [(symbol, book)]
  | (k, v) :: rest, symbol, book =>
    if symbol < k then (symbol, book) :: (k, v) :: rest
    else if symbol = k then (k, v) :: rest
    else (k, v) :: mapInsert rest symbol book

/-- The expression `table[symbol].f(...)` for a mutating member `f`: `operator[]` yields
the book stored under the key, inserting a value-initialized `OrderBook()` when the
key is absent, and `f` updates that book in place. -/
def mapSubscript : List (String × OrderBook) → String → (OrderBook → OrderBook) →
    List (String × OrderBook)
  | [], symbol, f => [(symbol, f (OrderBook.new ""))]
  | (k, v) :: rest, symbol, f =>
    if symbol < k then (symbol, f (OrderBook.new "")) :: (k, v) :: rest
    else if symbol = k then (k, f v) :: rest
    else (k, v) :: mapSubscript rest symbol f

/-- The entries are in strictly ascending key order, as in a `std::map`. -/
def KeysAscending (l : List (String × OrderBook)) : Prop :=
  l.Pairwise (fun a b => a.1 < b.1)

/-- The class `OrderTable`; `table` holds the entries of the map in iteration order. -/
structure OrderTable where
  table : List (String × OrderBook)
  deriving DecidableEq

namespace OrderTable

/-- The constructor `OrderTable() = default`. -/
def empty : OrderTable := { table := [] }

/-- The member `is_symbol_exists`. -/
def is_symbol_exists (t : OrderTable) (symbol : String) : Bool :=
  (mapFind t.table symbol).isSome

/-- The private member `addOrderBook`. -/
def addOrderBook (t : OrderTable) (order : Order) : OrderTable :=
  let symbol := order.getSymbol
  let book := (OrderBook.new symbol).addOrder order
  { table := mapInsert t.table symbol book }

/-- The member `processOrder`: appends the order to the book of its symbol. -/
def processOrder (t : OrderTable) (order : Order) : OrderTable :=
  if t.is_symbol_exists order.getSymbol then
    { table := mapSubscript t.table order.getSymbol (fun book => book.addOrder order) }
  else
    t.addOrderBook order

/-- The member `getSymbolsNum`. -/
def getSymbolsNum (t : OrderTable) : Int := (t.table.length : Int)

/-- The member `getTotalOrders`. -/
def getTotalOrders (t : OrderTable) : Int :=
  t.table.foldl (fun result pair => result + pair.2.get_orders_num) 0

/-- The member `getLongestTimeTrades`: the longest time between trades among all stocks. -/
def getLongestTimeTrades (t : OrderTable) : String × ℚ :=
  t.table.foldl
    (fun longestTimeTrades pair =>
      let longestTime := pair.2.get_longest_time_trades
      if longestTime > longestTimeTrades.2 then (pair.1, longestTime) else longestTimeTrades)
    ("", 0)

/-- The member `getLongestTimeTick`: the longest time between ticks among all stocks. -/
def getLongestTimeTick (t : OrderTable) : String × ℚ :=
  t.table.foldl
    (fun longestTimeTick pair =>
      let longestTime := pair.2.get_longest_time_tick
      if longestTime > longestTimeTick.2 then (pair.1, longestTime) else longestTimeTick)
    ("", 0)

/-- Feeding a sequence of orders to `processOrder`, first to last. -/
def processOrders (t : OrderTable) (os : List Order) : OrderTable :=
  os.foldl processOrder t

end OrderTable

/-- The bookkeeping of the ledger lies in the past of the orders `os` still to come:
the last trade time is unset or not later than any of them, so are the times of the
orders on top of the bid and ask stacks, and no recorded interval is negative. -/
def OrderBook.InPastOf (b : OrderBook) (os : List Order) : Prop :=
  (b.previousTradeTime = time_point_default ∨ ∀ o ∈ os, b.previousTradeTime ≤ o.getTimePoint) ∧
  (∀ top rest, b.bidPrices = top :: rest → ∀ o ∈ os, top.2.getTimePoint ≤ o.getTimePoint) ∧
  (∀ top rest, b.askPrices = top :: rest → ∀ o ∈ os, top.2.getTimePoint ≤ o.getTimePoint) ∧
  (∀ d ∈ b.timeDifferences, 0 ≤ d) ∧
  (∀ d ∈ b.timeTickDifferences, 0 ≤ d)

/-! ## The data parser -/

/-- The conversion `static_cast<long long>(seconds)` of a `double`: truncation toward
zero. -/
def truncToInt (x : ℚ) : Int := Int.tdiv x.num (x.den : Int)

namespace DataParser

/-- The function `createTimePoint`: the date is converted to a time point based on year,
month, day and the seconds past midnight. An hour counts 3600 seconds; `int`
arithmetic is taken without wrap-around. -/
def createTimePoint (year month day : Int) (seconds : ℚ) : time_point :=
  let timePoint : time_point := 0
  let timePoint := timePoint + 3600 * (24 * (day - 1))
  let timePoint := timePoint + 3600 * (24 * 30 * (month - 1))
  let timePoint := timePoint + 3600 * (24 * 365 * (year - 1970))
  let timePoint := timePoint + truncToInt seconds
  timePoint

end DataParser

/-- The middle of a sorted vector as `get_median` reads it: the element at `size / 2`
when the size is odd, the average of the elements at `size / 2 - 1` and `size / 2` when
it is even. -/
def middleOf (sorted : List ℚ) : ℚ :=
  if sorted.length % 2 = 0 then
    (sorted.getD (sorted.length / 2 - 1) 0 + sorted.getD (sorted.length / 2) 0) / 2
  else
    sorted.getD (sorted.length / 2) 0

/-- The call `str.find(substr)` of `std::string`: the lowest position at which `substr`
occurs in `str`, `none` for `npos`. -/
def stringFind : List Char → List Char → Option Nat
  | [], substr => if substr.isPrefixOf [] then some 0 else none
  | c :: rest, substr =>
    if substr.isPrefixOf (c :: rest) then some 0
    else (stringFind rest substr).map (fun pos => pos + 1)

/-- The call `str.substr(pos, len)` of `std::string`; `none` stands for the exception
`std::out_of_range`, thrown when `pos` is past the end. -/
def stringSubstr (str : List Char) (pos len : Nat) : Option (List Char) :=
  if pos > str.length then none else some ((str.drop pos).take len)

/-- The characters skipped by `std::stoi` at the start: those of `isspace`. -/
def isSpaceChar (c : Char) : Bool :=
  c.toNat = 32 || (9 ≤ c.toNat && c.toNat ≤ 13)

/-- The call `std::stoi(str)`: leading white space is skipped, an optional sign is read,
then the longest run of decimal digits; `none` stands for the exception
`std::invalid_argument`, thrown when there is no digit to convert. The range check of
`int` is not modelled. -/
def stoi (str : List Char) : Option Int :=
  let s1 := str.dropWhile isSpaceChar
  let signed : Bool × List Char :=
    match s1 with
    | '-' :: r => (true, r)
    | '+' :: r => (false, r)
    | _ => (false, s1)
  let digits := signed.2.takeWhile Char.isDigit
  let value : Nat := digits.foldl (fun acc c => 10 * acc + (c.toNat - 48)) 0
  if digits.isEmpty then none
  else some (if signed.1 then -(value : Int) else (value : Int))

/-- The class `DataParser`. -/
structure DataParser where
  file_path : String
  orders_num_limit : Int
  orders_table : OrderTable

/-- The fields that `parse_line` extracts from a line with `iss >> ...`; the extraction
itself is not modelled. -/
structure LineFields where
  symbol : String
  bid_price : ℚ
  ask_price : ℚ
  trade_price : ℚ
  bid_volume : Nat
  ask_volume : Nat
  trade_volume : Nat
  update_type : Int
  date : String
  seconds : ℚ
  condition_codes : String

namespace DataParser

/-- The function `containsSubstring`: `str.find(substr) != std::string::npos`. -/
def containsSubstring (str substr : String) : Bool :=
  (stringFind str.toList substr.toList).isSome

/-- The member `valid_order`: the validity of the order by its condition code. -/
def valid_order (condition_code : String) : Bool :=
  let validity := containsSubstring condition_code "XT" || condition_code == "@1"
  validity

/-- The function `process_type`. The local `type` is declared without an initial value
and is returned as it is when `update_type` is none of 1, 2, 3; its value is the
argument `type`, which may be an enumerator or `UpdateType.Other`. -/
def process_type (update_type : Int) (type : UpdateType) : UpdateType :=
  if update_type = 1 then UpdateType.Trade
  else if update_type = 2 then UpdateType.ChangeToBid
  else if update_type = 3 then UpdateType.ChangeToAsk
  else type

/-- The function `parse_date`: year, month and day of a date written like `20150420`;
`none` when `substr` or `stoi` throws. -/
def parse_date (date : String) : Option (List Int) :=
  match (stringSubstr date.toList 0 4).bind stoi with
  | none => none
  | some year =>
    match (stringSubstr date.toList 4 2).bind stoi with
    | none => none
    | some month =>
      match (stringSubstr date.toList 6 2).bind stoi with
      | none => none
      | some day => some [year, month, day]

/-- The private member `process_order_details`; `none` when `parse_date` throws. The
argument `type` is the value of the uninitialized local of `process_type`. -/
def process_order_details (p : DataParser) (symbol : String) (bid_p ask_p trade_p : ℚ)
    (bid_v ask_v trade_v : Nat) (update_type : Int) (date : String) (seconds : ℚ)
    (condition : String) (type : UpdateType) : Option DataParser :=
  let type := process_type update_type type
  match parse_date date with
  | none => none
  | some date_details =>
    let time_point := createTimePoint (date_details.getD 0 0) (date_details.getD 1 0)
      (date_details.getD 2 0) seconds
    let order : Order :=
      { symbol := symbol, bid_price := bid_p, ask_price := ask_p, trade_price := trade_p,
        bid_volume := bid_v, ask_volume := ask_v, trade_volume := trade_v,
        condition_code := condition, type := type, date := date, time := time_point }
    some { p with orders_table := p.orders_table.processOrder order }

/-- The member `parse_line`, from the point where the fields have been extracted: the
order is processed when its condition code is valid, with the code `@1` replaced by the
empty string. -/
def parse_line (p : DataParser) (f : LineFields) (type : UpdateType) : Option DataParser :=
  if valid_order f.condition_codes then
    let condition_codes := if f.condition_codes == "@1" then "" else f.condition_codes
    process_order_details p f.symbol f.bid_price f.ask_price f.trade_price f.bid_volume
      f.ask_volume f.trade_volume f.update_type f.date f.seconds condition_codes type
  else some p

end DataParser

/-- Sample fields of a line with the given condition code. -/
def sampleFields (condition_codes : String) : LineFields :=
  { symbol := "ABC", bid_price := 10, ask_price := 11, trade_price := 0, bid_volume := 1,
    ask_volume := 1, trade_volume := 0, update_type := 2, date := "20150420",
    seconds := 100, condition_codes := condition_codes }

/-- A parser that has read nothing yet. -/
def sampleParser : DataParser :=
  { file_path := "scandi.csv", orders_num_limit := 0, orders_table := OrderTable.empty }

/-! ## Calendar dates, as the claim on `createTimePoint` words them -/

/-- A leap year of the Gregorian calendar. -/
def specLeapYear (year : Int) : Bool :=
  (year % 4 = 0 && year % 100 ≠ 0) || year % 400 = 0

/-- The number of days of a month of the Gregorian calendar. -/
def specDaysInMonth (year month : Int) : Int :=
  if month = 2 then (if specLeapYear year then 29 else 28)
  else if month = 4 ∨ month = 6 ∨ month = 9 ∨ month = 11 then 30
  else 31

/-- A valid calendar date from 1970 on with seconds in `[0, 86400)`. -/
def specValidInput (year month day : Int) (seconds : ℚ) : Prop :=
  1970 ≤ year ∧ 1 ≤ month ∧ month ≤ 12 ∧ 1 ≤ day ∧ day ≤ specDaysInMonth year month ∧
    0 ≤ seconds ∧ seconds < 86400

/-- The first input is chronologically not later than the second: the order of the
calendar, by year, then month, then day, then seconds past midnight. -/
def specNotLater (y1 m1 d1 : Int) (s1 : ℚ) (y2 m2 d2 : Int) (s2 : ℚ) : Prop :=
  y1 < y2 ∨ (y1 = y2 ∧ (m1 < m2 ∨ (m1 = m2 ∧ (d1 < d2 ∨ (d1 = d2 ∧ s1 ≤ s2)))))

/-! ## Sample data -/

/-- A sample order of the given kind, prices and time. -/
def sampleOrder (sym : String) (ty : UpdateType) (bid ask : ℚ) (t : time_point) : Order :=
  { symbol := sym, bid_price := bid, ask_price := ask, trade_price := 0,
    bid_volume := 0, ask_volume := 0, trade_volume := 0, condition_code := "XT",
    type := ty, date := "20150420", time := t }

/-! ## Effect of `addOrder` on each field of the ledger -/

namespace OrderBook

theorem addOrder_orders (b : OrderBook) (o : Order) :
    (addOrder b o).orders = b.orders ++ [o] := by
  unfold addOrder analyze getTimeDifferencesTrade getTickTimeDifferences getBidAskSpreadList
  simp only []
  split_ifs <;> (try split) <;> (try split_ifs) <;> simp_all

theorem addOrder_symbol (b : OrderBook) (o : Order) :
    (addOrder b o).symbol = b.symbol := by
  unfold addOrder analyze getTimeDifferencesTrade getTickTimeDifferences getBidAskSpreadList
  simp only []
  split_ifs <;> (try split) <;> (try split_ifs) <;> simp_all

theorem addOrder_spreadList (b : OrderBook) (o : Order) :
    (addOrder b o).spreadList = b.spreadList ++ [o.ask_price - o.bid_price] := by
  unfold addOrder analyze getTimeDifferencesTrade getTickTimeDifferences getBidAskSpreadList
  simp only []
  split_ifs <;> (try split) <;> (try split_ifs) <;> simp_all

theorem addOrder_timeDifferences (b : OrderBook) (o : Order) :
    (addOrder b o).timeDifferences =
      if o.type = UpdateType.Trade ∧ b.previousTradeTime ≠ time_point_default then
        b.timeDifferences ++ [o.time - b.previousTradeTime]
      else b.timeDifferences := by
  unfold addOrder analyze getTimeDifferencesTrade getTickTimeDifferences getBidAskSpreadList
  simp only []
  split_ifs <;> (try split) <;> (try split_ifs) <;> simp_all

theorem addOrder_previousTradeTime (b : OrderBook) (o : Order) :
    (addOrder b o).previousTradeTime =
      if o.type = UpdateType.Trade then o.time else b.previousTradeTime := by
  unfold addOrder analyze getTimeDifferencesTrade getTickTimeDifferences getBidAskSpreadList
  simp only []
  split_ifs <;> (try split) <;> (try split_ifs) <;> simp_all

theorem addOrder_bidPrices (b : OrderBook) (o : Order) :
    (addOrder b o).bidPrices =
      if o.type = UpdateType.ChangeToBid then
        match b.bidPrices with
        | top :: rest => if o.bid_price = top.1 then top :: rest else (o.bid_price, o) :: top :: rest
        | [] => [(o.bid_price, o)]
      else b.bidPrices := by
  unfold addOrder analyze getTimeDifferencesTrade getTickTimeDifferences getBidAskSpreadList
  simp only []
  split_ifs <;> (try split) <;> (try split_ifs) <;> simp_all

theorem addOrder_askPrices (b : OrderBook) (o : Order) :
    (addOrder b o).askPrices =
      if o.type = UpdateType.ChangeToAsk then
        match b.askPrices with
        | top :: rest => if o.bid_price = top.1 then top :: rest else (o.bid_price, o) :: top :: rest
        | [] => [(o.bid_price, o)]
      else b.askPrices := by
  unfold addOrder analyze getTimeDifferencesTrade getTickTimeDifferences getBidAskSpreadList
  simp only []
  split_ifs <;> (try split) <;> (try split_ifs) <;> simp_all

theorem addOrder_timeTickDifferences (b : OrderBook) (o : Order) :
    (addOrder b o).timeTickDifferences =
      if o.type = UpdateType.ChangeToBid then
        match b.bidPrices with
        | top :: _ =>
          if o.bid_price = top.1 then b.timeTickDifferences
          else b.timeTickDifferences ++ [o.time - top.2.time]
        | [] => b.timeTickDifferences
      else if o.type = UpdateType.ChangeToAsk then
        match b.askPrices with
        | top :: _ =>
          if o.bid_price = top.1 then b.timeTickDifferences
          else b.timeTickDifferences ++ [o.time - top.2.time]
        | [] => b.timeTickDifferences
      else b.timeTickDifferences := by
  unfold addOrder analyze getTimeDifferencesTrade getTickTimeDifferences getBidAskSpreadList
  simp only []
  split_ifs <;> (try split) <;> (try split_ifs) <;> simp_all

theorem addOrders_nil (b : OrderBook) : addOrders b [] = b := rfl

theorem addOrders_cons (b : OrderBook) (o : Order) (os : List Order) :
    addOrders b (o :: os) = addOrders (addOrder b o) os := rfl

theorem addOrders_append (b : OrderBook) (os os2 : List Order) :
    addOrders b (os ++ os2) = addOrders (addOrders b os) os2 := by
  simp [addOrders, List.foldl_append]

/-- Orders that are not trades leave the trade bookkeeping alone. -/
theorem addOrders_no_trade (os : List Order) (b : OrderBook)
    (h : ∀ o ∈ os, o.getType ≠ UpdateType.Trade) :
    (addOrders b os).timeDifferences = b.timeDifferences ∧
      (addOrders b os).previousTradeTime = b.previousTradeTime := by
  induction os generalizing b with
  | nil => exact ⟨rfl, rfl⟩
  | cons o os ih =>
    have ho : o.type ≠ UpdateType.Trade := by simpa using h o (List.mem_cons_self _ _)
    have hrest := ih (addOrder b o) (fun x hx => h x (List.mem_cons_of_mem _ hx))
    rw [addOrders_cons, hrest.1, hrest.2, addOrder_timeDifferences, addOrder_previousTradeTime]
    simp [ho]

/-- Orders that are not bid changes leave the bid stack alone. -/
theorem addOrders_no_bid (os : List Order) (b : OrderBook)
    (h : ∀ o ∈ os, o.getType ≠ UpdateType.ChangeToBid) :
    (addOrders b os).bidPrices = b.bidPrices := by
  induction os generalizing b with
  | nil => rfl
  | cons o os ih =>
    have ho : o.type ≠ UpdateType.ChangeToBid := by simpa using h o (List.mem_cons_self _ _)
    rw [addOrders_cons, ih (addOrder b o) (fun x hx => h x (List.mem_cons_of_mem _ hx)),
      addOrder_bidPrices]
    simp [ho]

/-- After a bid change the top of the bid stack carries the bid price of the order. -/
theorem addOrder_bid_top (b : OrderBook) (o : Order) (h : o.getType = UpdateType.ChangeToBid) :
    ∃ base rest, (addOrder b o).bidPrices = (o.bid_price, base) :: rest ∧
      base.time = (match b.bidPrices with
        | top :: _ => if o.bid_price = top.1 then top.2.time else o.time
        | [] => o.time) := by
  have h2 : o.type = UpdateType.ChangeToBid := by simpa using h
  rw [addOrder_bidPrices]
  rcases hb : b.bidPrices with _ | ⟨top, rest⟩
  · exact ⟨o, [], by simp [h2], by simp⟩
  · by_cases hp : o.bid_price = top.1
    · exact ⟨top.2, rest, by simp [h2, hp], by simp [hp]⟩
    · exact ⟨o, top :: rest, by simp [h2, hp], by simp [hp]⟩

theorem addOrders_lengths (os : List Order) (b : OrderBook) :
    (addOrders b os).spreadList.length = b.spreadList.length + os.length ∧
      (addOrders b os).orders.length = b.orders.length + os.length := by
  induction os generalizing b with
  | nil => exact ⟨rfl, rfl⟩
  | cons o os ih =>
    have h := ih (addOrder b o)
    rw [addOrders_cons, h.1, h.2, addOrder_spreadList, addOrder_orders]
    simp only [List.length_append, List.length_cons, List.length_nil]
    omega

theorem get_orders_num_addOrder (b : OrderBook) (o : Order) :
    get_orders_num (addOrder b o) = get_orders_num b + 1 := by
  simp [get_orders_num, addOrder_orders]

end OrderBook

/-! ## The map operations -/

theorem mapFind_some_mem {l : List (String × OrderBook)} {k : String} {v : OrderBook}
    (h : mapFind l k = some v) : (k, v) ∈ l := by
  induction l with
  | nil => simp [mapFind] at h
  | cons hd tl ih =>
    obtain ⟨k0, v0⟩ := hd
    by_cases hk : k = k0
    · subst hk
      simp [mapFind] at h
      simp [h]
    · simp [mapFind, hk] at h
      exact List.mem_cons_of_mem _ (ih h)

theorem mapFind_isSome_iff (l : List (String × OrderBook)) (k : String) :
    (mapFind l k).isSome = true ↔ k ∈ l.map Prod.fst := by
  induction l with
  | nil => simp [mapFind]
  | cons hd tl ih =>
    obtain ⟨k0, v0⟩ := hd
    by_cases hk : k = k0
    · simp [mapFind, hk]
    · simp only [mapFind, hk, if_false, ih, List.map_cons, List.mem_cons, false_or]

theorem mapFind_none_of_lt {k0 : String} {v0 : OrderBook} {tl : List (String × OrderBook)}
    (hs : KeysAscending ((k0, v0) :: tl)) {k : String} (hk : k ≤ k0) :
    mapFind tl k = none := by
  rcases hfind : mapFind tl k with _ | v
  · rfl
  · have hmem := mapFind_some_mem hfind
    have hlt : k0 < k := (List.pairwise_cons.mp hs).1 (k, v) hmem
    exact absurd (lt_of_lt_of_le hlt hk) (lt_irrefl _)

theorem mem_iff_mapFind {l : List (String × OrderBook)} (hs : KeysAscending l)
    (k : String) (v : OrderBook) : (k, v) ∈ l ↔ mapFind l k = some v := by
  refine ⟨?_, mapFind_some_mem⟩
  induction l with
  | nil => simp
  | cons hd tl ih =>
    obtain ⟨k0, v0⟩ := hd
    intro hmem
    rcases List.mem_cons.mp hmem with heq | htl
    · simp only [Prod.mk.injEq] at heq
      simp [mapFind, heq.1, heq.2]
    · have hlt : k0 < k := (List.pairwise_cons.mp hs).1 (k, v) htl
      simp [mapFind, ne_of_gt hlt, ih (List.pairwise_cons.mp hs).2 htl]

theorem mapFind_mapInsert (l : List (String × OrderBook)) (k : String) (v : OrderBook)
    (habs : mapFind l k = none) (k2 : String) :
    mapFind (mapInsert l k v) k2 = if k2 = k then some v else mapFind l k2 := by
  induction l with
  | nil => simp [mapInsert, mapFind]
  | cons hd tl ih =>
    obtain ⟨k0, v0⟩ := hd
    have hne : k ≠ k0 := by
      intro h
      simp [mapFind, h] at habs
    have htl : mapFind tl k = none := by simpa [mapFind, hne] using habs
    by_cases hlt : k < k0
    · simp [mapInsert, hlt, mapFind]
    · simp only [mapInsert, hlt, hne, if_false, mapFind, ih htl]
      by_cases h2 : k2 = k0
      · simp [h2, Ne.symm hne]
      · simp [h2]

theorem mapFind_mapSubscript (l : List (String × OrderBook)) (hs : KeysAscending l)
    (k : String) (v : OrderBook) (f : OrderBook → OrderBook) (hpres : mapFind l k = some v)
    (k2 : String) :
    mapFind (mapSubscript l k f) k2 = if k2 = k then some (f v) else mapFind l k2 := by
  induction l with
  | nil => simp [mapFind] at hpres
  | cons hd tl ih =>
    obtain ⟨k0, v0⟩ := hd
    by_cases hlt : k < k0
    · have hnone := mapFind_none_of_lt hs (le_of_lt hlt)
      simp [mapFind, ne_of_lt hlt, hnone] at hpres
    · by_cases heq : k = k0
      · subst heq
        have hv : v0 = v := by simpa [mapFind] using hpres
        subst hv
        simp only [mapSubscript, hlt, if_false, if_true, mapFind]
        by_cases h2 : k2 = k <;> simp [h2]
      · have htl : mapFind tl k = some v := by simpa [mapFind, heq] using hpres
        simp only [mapSubscript, hlt, heq, if_false, mapFind,
          ih (List.pairwise_cons.mp hs).2 htl]
        by_cases h2 : k2 = k0
        · simp [h2, Ne.symm heq]
        · simp [h2]

theorem mapFind_mapSubscript_other (l : List (String × OrderBook)) (k : String)
    (f : OrderBook → OrderBook) (k2 : String) (hne : k2 ≠ k) :
    mapFind (mapSubscript l k f) k2 = mapFind l k2 := by
  induction l with
  | nil => simp [mapSubscript, mapFind, hne]
  | cons hd tl ih =>
    obtain ⟨k0, v0⟩ := hd
    by_cases hlt : k < k0
    · simp [mapSubscript, hlt, mapFind, hne]
    · by_cases heq : k = k0
      · subst heq
        simp [mapSubscript, mapFind, hne]
      · simp only [mapSubscript, hlt, heq, if_false, mapFind, ih]

theorem mapFind_mapInsert_other (l : List (String × OrderBook)) (k : String) (v : OrderBook)
    (k2 : String) (hne : k2 ≠ k) :
    mapFind (mapInsert l k v) k2 = mapFind l k2 := by
  induction l with
  | nil => simp [mapInsert, mapFind, hne]
  | cons hd tl ih =>
    obtain ⟨k0, v0⟩ := hd
    by_cases hlt : k < k0
    · simp [mapInsert, hlt, mapFind, hne]
    · by_cases heq : k = k0
      · subst heq
        simp [mapInsert, mapFind]
      · simp only [mapInsert, hlt, heq, if_false, mapFind, ih]

theorem mapInsert_keys_mem (l : List (String × OrderBook)) (k : String) (v : OrderBook)
    (p : String × OrderBook) (hp : p ∈ mapInsert l k v) : p = (k, v) ∨ p ∈ l := by
  induction l with
  | nil => simpa [mapInsert] using hp
  | cons hd tl ih =>
    obtain ⟨k0, v0⟩ := hd
    by_cases hlt : k < k0
    · simpa [mapInsert, hlt] using hp
    · by_cases heq : k = k0
      · right; simpa [mapInsert, heq] using hp
      · simp only [mapInsert, hlt, heq, if_false, List.mem_cons] at hp
        rcases hp with h | h
        · right; simp [h]
        · rcases ih h with h2 | h2
          · left; exact h2
          · right; exact List.mem_cons_of_mem _ h2

theorem keysAscending_mapInsert (l : List (String × OrderBook)) (hs : KeysAscending l)
    (k : String) (v : OrderBook) : KeysAscending (mapInsert l k v) := by
  induction l with
  | nil => simp [mapInsert, KeysAscending]
  | cons hd tl ih =>
    obtain ⟨k0, v0⟩ := hd
    have hcons := List.pairwise_cons.mp hs
    by_cases hlt : k < k0
    · simp only [mapInsert, hlt, if_true]
      refine List.pairwise_cons.mpr ⟨?_, hs⟩
      intro p hp
      rcases List.mem_cons.mp hp with h | h
      · simpa [h] using hlt
      · exact lt_trans hlt (hcons.1 p h)
    · by_cases heq : k = k0
      · simpa [mapInsert, heq] using hs
      · simp only [mapInsert, hlt, heq, if_false]
        refine List.pairwise_cons.mpr ⟨?_, ih hcons.2⟩
        intro p hp
        rcases mapInsert_keys_mem tl k v p hp with h | h
        · have : k0 < k := lt_of_le_of_ne (not_lt.mp hlt) (Ne.symm heq)
          simpa [h] using this
        · exact hcons.1 p h

theorem mapSubscript_keys (l : List (String × OrderBook)) (hs : KeysAscending l)
    (k : String) (v : OrderBook) (f : OrderBook → OrderBook) (hpres : mapFind l k = some v) :
    (mapSubscript l k f).map Prod.fst = l.map Prod.fst := by
  induction l with
  | nil => simp [mapFind] at hpres
  | cons hd tl ih =>
    obtain ⟨k0, v0⟩ := hd
    by_cases hlt : k < k0
    · have hnone := mapFind_none_of_lt hs (le_of_lt hlt)
      simp [mapFind, ne_of_lt hlt, hnone] at hpres
    · by_cases heq : k = k0
      · simp [mapSubscript, heq]
      · have htl : mapFind tl k = some v := by simpa [mapFind, heq] using hpres
        simp [mapSubscript, hlt, heq, ih (List.pairwise_cons.mp hs).2 htl]

theorem keysAscending_mapSubscript (l : List (String × OrderBook)) (hs : KeysAscending l)
    (k : String) (v : OrderBook) (f : OrderBook → OrderBook) (hpres : mapFind l k = some v) :
    KeysAscending (mapSubscript l k f) := by
  have hkeys := mapSubscript_keys l hs k v f hpres
  unfold KeysAscending at hs ⊢
  rw [← List.pairwise_map (f := Prod.fst) (R := fun a b => a < b)] at hs ⊢
  rw [hkeys]
  exact hs

/-! ## Reachable tables -/

namespace OrderTable

theorem processOrders_append (t : OrderTable) (os : List Order) (o : Order) :
    t.processOrders (os ++ [o]) = (t.processOrders os).processOrder o := by
  simp [processOrders, List.foldl_append]

/-- Processing an order leaves the books of the other symbols untouched. -/
theorem processOrder_other (t : OrderTable) (o : Order) (s : String) (hne : s ≠ o.getSymbol) :
    mapFind (t.processOrder o).table s = mapFind t.table s := by
  unfold processOrder addOrderBook
  split_ifs
  · exact mapFind_mapSubscript_other _ _ _ _ hne
  · exact mapFind_mapInsert_other _ _ _ _ hne

/-- The table reached from the empty table: keys ascending, and under every symbol that
occurred the ledger built from the orders of that symbol alone. -/
theorem processOrders_table (os : List Order) :
    KeysAscending (empty.processOrders os).table ∧
      ∀ s : String, mapFind (empty.processOrders os).table s =
        if s ∈ os.map Order.getSymbol then
          some ((OrderBook.new s).addOrders (os.filter (fun o => o.getSymbol = s)))
        else none := by
  induction os using List.reverseRecOn with
  | nil =>
    refine ⟨by simp [processOrders, empty, KeysAscending], fun s => ?_⟩
    simp [processOrders, empty, mapFind]
  | append_singleton os o ih =>
    obtain ⟨hasc, hfind⟩ := ih
    rw [processOrders_append]
    by_cases hex : (empty.processOrders os).is_symbol_exists o.getSymbol = true
    · have hmem : o.getSymbol ∈ os.map Order.getSymbol := by
        by_contra hno
        rw [is_symbol_exists, hfind, if_neg hno] at hex
        exact Bool.noConfusion hex
      have hpres := hfind o.getSymbol
      rw [if_pos hmem] at hpres
      have htab : ((empty.processOrders os).processOrder o).table =
          mapSubscript (empty.processOrders os).table o.getSymbol
            (fun book => book.addOrder o) := by
        rw [processOrder, if_pos hex]
      rw [htab]
      refine ⟨keysAscending_mapSubscript _ hasc _ _ _ hpres, fun s => ?_⟩
      rw [mapFind_mapSubscript _ hasc _ _ _ hpres]
      by_cases hs : s = o.getSymbol
      · subst hs
        simp [List.filter_append, OrderBook.addOrders_append, OrderBook.addOrders]
      · have hs2 : ¬ o.getSymbol = s := fun h => hs h.symm
        simp [hs, hs2, hfind, List.filter_append]
    · have hnone : mapFind (empty.processOrders os).table o.getSymbol = none := by
        simpa [is_symbol_exists] using hex
      have hmem : o.getSymbol ∉ os.map Order.getSymbol := by
        intro hyes
        have := hfind o.getSymbol
        rw [if_pos hyes, hnone] at this
        exact Option.noConfusion this
      have htab : ((empty.processOrders os).processOrder o).table =
          mapInsert (empty.processOrders os).table o.getSymbol
            ((OrderBook.new o.getSymbol).addOrder o) := by
        rw [processOrder, if_neg hex, addOrderBook]
      rw [htab]
      refine ⟨keysAscending_mapInsert _ hasc _ _, fun s => ?_⟩
      rw [mapFind_mapInsert _ _ _ hnone]
      by_cases hs : s = o.getSymbol
      · subst hs
        have hfil : os.filter (fun x => x.getSymbol = o.getSymbol) = [] := by
          rw [List.filter_eq_nil_iff]
          intro x hx hxs
          exact hmem (List.mem_map.mpr ⟨x, hx, by simpa using hxs⟩)
        simp [List.filter_append, hfil, OrderBook.addOrders]
      · have hs2 : ¬ o.getSymbol = s := fun h => hs h.symm
        simp [hs, hs2, hfind, List.filter_append]

end OrderTable

/-! ## Reductions and aggregates -/

theorem get_largest_nil : OrderBook.get_largest [] = 0 := by
  simp [OrderBook.get_largest, sortSeconds]

/-- On a non-empty vector `get_largest` is an element of the vector and bounds every
element from above. -/
theorem get_largest_is_max (l : List seconds) (hne : l ≠ []) :
    (∃ d ∈ l, OrderBook.get_largest l = (d : ℚ)) ∧
      ∀ d ∈ l, (d : ℚ) ≤ OrderBook.get_largest l := by
  have hperm : List.Perm (sortSeconds l) l := List.perm_insertionSort _ l
  have hsorted : (sortSeconds l).Sorted (fun a b => a ≤ b) := List.sorted_insertionSort _ l
  have hne2 : sortSeconds l ≠ [] := by
    intro h
    rw [h] at hperm
    exact hne (List.Perm.nil_eq hperm).symm
  obtain ⟨m, hm⟩ : ∃ m, (sortSeconds l).getLast? = some m :=
    ⟨_, List.getLast?_eq_getLast _ hne2⟩
  obtain ⟨ys, hys⟩ := List.getLast?_eq_some_iff.mp hm
  have hval : OrderBook.get_largest l = (m : ℚ) := by
    simp [OrderBook.get_largest, hm]
  have hmem : m ∈ l := hperm.mem_iff.mp (by rw [hys]; simp)
  refine ⟨⟨m, hmem, hval⟩, fun d hd => ?_⟩
  rw [hval]
  have hd2 : d ∈ ys ++ [m] := by
    rw [← hys]
    exact hperm.mem_iff.mpr hd
  rcases List.mem_append.mp hd2 with h | h
  · have hpw : (ys ++ [m]).Pairwise (fun a b => a ≤ b) := by
      rw [← hys]
      exact hsorted
    exact_mod_cast (List.pairwise_append.mp hpw).2.2 d h m (by simp)
  · have : d = m := by simpa using h
    rw [this]

namespace OrderBook

/-- After `addOrder` the stored longest trade time is `get_largest` of the series. -/
theorem addOrder_longest_time_trades (b : OrderBook) (o : Order) :
    (addOrder b o).longest_time_trades = get_largest (addOrder b o).timeDifferences := by
  unfold addOrder analyze getTimeDifferencesTrade getTickTimeDifferences getBidAskSpreadList
  simp only []
  split_ifs <;> (try split) <;> (try split_ifs) <;> simp_all

theorem addOrders_longest_time_trades (symbol : String) (os : List Order) :
    ((new symbol).addOrders os).get_longest_time_trades
      = get_largest ((new symbol).addOrders os).timeDifferences := by
  induction os using List.reverseRecOn with
  | nil => simp [addOrders, new, get_longest_time_trades, get_largest_nil]
  | append_singleton os o _ =>
    rw [addOrders_append, addOrders_cons, addOrders_nil]
    exact addOrder_longest_time_trades _ o

end OrderBook

/-- The scan of `getLongestTimeTrades` / `getLongestTimeTick` over the entries, for a
stored statistic `g`, started from the pair `init`. -/
theorem longest_scan (g : OrderBook → ℚ) (l : List (String × OrderBook)) (init : String × ℚ) :
    init.2 ≤ (l.foldl (fun acc pair => if g pair.2 > acc.2 then (pair.1, g pair.2) else acc)
        init).2 ∧
    (∀ p ∈ l, g p.2 ≤ (l.foldl
        (fun acc pair => if g pair.2 > acc.2 then (pair.1, g pair.2) else acc) init).2) ∧
    ((∀ p ∈ l, g p.2 ≤ init.2) →
      l.foldl (fun acc pair => if g pair.2 > acc.2 then (pair.1, g pair.2) else acc) init
        = init) ∧
    ((∃ p ∈ l, init.2 < g p.2) →
      ∃ p ∈ l, l.foldl (fun acc pair => if g pair.2 > acc.2 then (pair.1, g pair.2) else acc)
        init = (p.1, g p.2)) := by
  induction l generalizing init with
  | nil => simp
  | cons hd tl ih =>
    simp only [List.foldl_cons]
    by_cases hgt : g hd.2 > init.2
    · simp only [hgt, if_true]
      obtain ⟨h1, h2, h3, h4⟩ := ih (hd.1, g hd.2)
      refine ⟨le_trans (le_of_lt hgt) h1, ?_, ?_, ?_⟩
      · intro p hp
        rcases List.mem_cons.mp hp with h | h
        · rw [h]; exact h1
        · exact h2 p h
      · intro hall
        exact absurd (hall hd (List.mem_cons_self _ _)) (not_le.mpr hgt)
      · intro _
        by_cases hex : ∃ p ∈ tl, (hd.1, g hd.2).2 < g p.2
        · obtain ⟨p, hp, hpe⟩ := h4 hex
          exact ⟨p, List.mem_cons_of_mem _ hp, hpe⟩
        · refine ⟨hd, List.mem_cons_self _ _, h3 ?_⟩
          intro p hp
          exact not_lt.mp (fun hlt => hex ⟨p, hp, hlt⟩)
    · simp only [hgt, if_false]
      obtain ⟨h1, h2, h3, h4⟩ := ih init
      refine ⟨h1, ?_, ?_, ?_⟩
      · intro p hp
        rcases List.mem_cons.mp hp with h | h
        · rw [h]; exact le_trans (not_lt.mp hgt) h1
        · exact h2 p h
      · intro hall
        exact h3 (fun p hp => hall p (List.mem_cons_of_mem _ hp))
      · rintro ⟨p, hp, hlt⟩
        rcases List.mem_cons.mp hp with h | h
        · rw [h] at hlt; exact absurd hlt hgt
        · obtain ⟨q, hq, hqe⟩ := h4 ⟨p, h, hlt⟩
          exact ⟨q, List.mem_cons_of_mem _ hq, hqe⟩

theorem foldl_add_eq_sum (g : String × OrderBook → Int) (l : List (String × OrderBook))
    (init : Int) :
    l.foldl (fun result pair => result + g pair) init = init + (l.map g).sum := by
  induction l generalizing init with
  | nil => simp
  | cons hd tl ih => simp [ih, add_assoc]

theorem sum_mapInsert (g : OrderBook → Int) (l : List (String × OrderBook)) (k : String)
    (v : OrderBook) (habs : mapFind l k = none) :
    ((mapInsert l k v).map (fun p => g p.2)).sum = (l.map (fun p => g p.2)).sum + g v := by
  induction l with
  | nil => simp [mapInsert]
  | cons hd tl ih =>
    obtain ⟨k0, v0⟩ := hd
    have hne : k ≠ k0 := by
      intro h
      simp [mapFind, h] at habs
    have htl : mapFind tl k = none := by simpa [mapFind, hne] using habs
    by_cases hlt : k < k0
    · simp [mapInsert, hlt]; ring
    · simp [mapInsert, hlt, hne, ih htl]; ring

theorem sum_mapSubscript (g : OrderBook → Int) (l : List (String × OrderBook))
    (hs : KeysAscending l) (k : String) (v : OrderBook) (f : OrderBook → OrderBook)
    (hpres : mapFind l k = some v) :
    ((mapSubscript l k f).map (fun p => g p.2)).sum
      = (l.map (fun p => g p.2)).sum - g v + g (f v) := by
  induction l with
  | nil => simp [mapFind] at hpres
  | cons hd tl ih =>
    obtain ⟨k0, v0⟩ := hd
    by_cases hlt : k < k0
    · have hnone := mapFind_none_of_lt hs (le_of_lt hlt)
      simp [mapFind, ne_of_lt hlt, hnone] at hpres
    · by_cases heq : k = k0
      · subst heq
        have hv : v0 = v := by simpa [mapFind] using hpres
        subst hv
        simp [mapSubscript]; ring
      · have htl : mapFind tl k = some v := by simpa [mapFind, heq] using hpres
        simp [mapSubscript, hlt, heq, ih (List.pairwise_cons.mp hs).2 htl]; ring

namespace OrderTable

theorem getTotalOrders_eq_sum (t : OrderTable) :
    t.getTotalOrders = (t.table.map (fun p => p.2.get_orders_num)).sum := by
  simp [getTotalOrders, foldl_add_eq_sum (fun p => p.2.get_orders_num)]

theorem sum_orders_processOrders (os : List Order) :
    ((empty.processOrders os).table.map (fun p => p.2.get_orders_num)).sum
      = (os.length : Int) := by
  induction os using List.reverseRecOn with
  | nil => simp [processOrders, empty]
  | append_singleton os o ih =>
    obtain ⟨hasc, hfind⟩ := processOrders_table os
    rw [processOrders_append]
    by_cases hex : (empty.processOrders os).is_symbol_exists o.getSymbol = true
    · obtain ⟨v, hv⟩ := Option.isSome_iff_exists.mp hex
      rw [processOrder, if_pos hex]
      simp only []
      rw [sum_mapSubscript OrderBook.get_orders_num _ hasc _ v _ hv, ih,
        OrderBook.get_orders_num_addOrder]
      simp only [List.length_append, List.length_singleton]
      push_cast
      ring
    · have hnone : mapFind (empty.processOrders os).table o.getSymbol = none := by
        simpa [is_symbol_exists] using hex
      rw [processOrder, if_neg hex, addOrderBook]
      simp only []
      rw [sum_mapInsert OrderBook.get_orders_num _ _ _ hnone, ih,
        OrderBook.get_orders_num_addOrder]
      simp [OrderBook.get_orders_num, OrderBook.new]

end OrderTable

/-! ## The claims on a single ledger -/

/-- C1, as stated, fails at `p` the epoch: after a trade at the epoch (the value of a
default-constructed time point), a further trade at time 10 appends nothing to the
trade-interval series, where the claim asks for the one value `10 - 0`. -/
theorem C1_counterexample_trade_at_epoch :
    (sampleOrder "ABC" .Trade 10 11 0).getType = UpdateType.Trade ∧
    (sampleOrder "ABC" .Trade 10 11 10).getType = UpdateType.Trade ∧
    (((OrderBook.new "ABC").addOrder (sampleOrder "ABC" .Trade 10 11 0)).addOrder
        (sampleOrder "ABC" .Trade 10 11 10)).timeDifferences = [] ∧
    (((OrderBook.new "ABC").addOrder (sampleOrder "ABC" .Trade 10 11 0)).addOrder
        (sampleOrder "ABC" .Trade 10 11 10)).timeDifferences ≠
      ((OrderBook.new "ABC").addOrder (sampleOrder "ABC" .Trade 10 11 0)).timeDifferences
        ++ [(sampleOrder "ABC" .Trade 10 11 10).getTimePoint
              - (sampleOrder "ABC" .Trade 10 11 0).getTimePoint] := by
  decide!

/-- C1, amended: for every ledger state `b0`, every Trade record `e1` at a time `p`
other than the epoch, every sequence `mid` of non-Trade records and every further
Trade record `e2` at time `t`, ingesting `e2` appends exactly the one value `t - p`
to the trade-interval series and sets the last trade time to `t`. -/
theorem C1_trade_interval_appended (b0 : OrderBook) (e1 e2 : Order) (mid : List Order)
    (h1 : e1.getType = UpdateType.Trade) (h2 : e2.getType = UpdateType.Trade)
    (hmid : ∀ o ∈ mid, o.getType ≠ UpdateType.Trade)
    (hp : e1.getTimePoint ≠ time_point_default) :
    (((b0.addOrder e1).addOrders mid).addOrder e2).timeDifferences =
        ((b0.addOrder e1).addOrders mid).timeDifferences
          ++ [e2.getTimePoint - e1.getTimePoint] ∧
      (((b0.addOrder e1).addOrders mid).addOrder e2).previousTradeTime = e2.getTimePoint := by
  have hprev : ((b0.addOrder e1).addOrders mid).previousTradeTime = e1.time := by
    rw [(OrderBook.addOrders_no_trade mid _ hmid).2, OrderBook.addOrder_previousTradeTime]
    simp at h1
    simp [h1]
  simp only [Order.getType, Order.getTimePoint] at h2 hp ⊢
  rw [OrderBook.addOrder_timeDifferences, OrderBook.addOrder_previousTradeTime, hprev]
  simp [h2, hp]

/-- Witness of C1 (amended): trades at times 100 and 110 with a bid change in between. -/
theorem C1_trade_interval_appended_witness :
    ((((OrderBook.new "ABC").addOrder (sampleOrder "ABC" .Trade 10 11 100)).addOrders
        [sampleOrder "ABC" .ChangeToBid 10 11 105]).addOrder
        (sampleOrder "ABC" .Trade 10 11 110)).timeDifferences = [10] ∧
    ((((OrderBook.new "ABC").addOrder (sampleOrder "ABC" .Trade 10 11 100)).addOrders
        [sampleOrder "ABC" .ChangeToBid 10 11 105]).addOrder
        (sampleOrder "ABC" .Trade 10 11 110)).previousTradeTime = 110 := by
  have h := C1_trade_interval_appended (OrderBook.new "ABC")
    (sampleOrder "ABC" .Trade 10 11 100) (sampleOrder "ABC" .Trade 10 11 110)
    [sampleOrder "ABC" .ChangeToBid 10 11 105] (by decide) (by decide) (by decide) (by decide)
  refine ⟨h.1.trans (by decide!), h.2.trans (by decide!)⟩

/-- C2, as stated, fails on its own scenario: bid changes at price 10 (t=0), price 10
(t=5) and price 10.5 (t=8) leave the tick-interval series `[8]`, not `[3]`; the value
appended by the third record is not `e2.timestamp - e1.timestamp = 8 - 5`. -/
theorem C2_counterexample_duplicate_keeps_baseline :
    (sampleOrder "XYZ" .ChangeToBid 10 11 5).getBidPrice ≠
      (sampleOrder "XYZ" .ChangeToBid (21/2) 11 8).getBidPrice ∧
    ((OrderBook.new "XYZ").addOrders
        [sampleOrder "XYZ" .ChangeToBid 10 11 0, sampleOrder "XYZ" .ChangeToBid 10 11 5,
         sampleOrder "XYZ" .ChangeToBid (21/2) 11 8]).timeTickDifferences = [8] ∧
    ((((OrderBook.new "XYZ").addOrder (sampleOrder "XYZ" .ChangeToBid 10 11 0)).addOrder
        (sampleOrder "XYZ" .ChangeToBid 10 11 5)).addOrder
        (sampleOrder "XYZ" .ChangeToBid (21/2) 11 8)).timeTickDifferences ≠
      (((OrderBook.new "XYZ").addOrder (sampleOrder "XYZ" .ChangeToBid 10 11 0)).addOrder
        (sampleOrder "XYZ" .ChangeToBid 10 11 5)).timeTickDifferences
        ++ [(sampleOrder "XYZ" .ChangeToBid (21/2) 11 8).getTimePoint
              - (sampleOrder "XYZ" .ChangeToBid 10 11 5).getTimePoint] := by
  decide!

/-- C2, amended: for every ledger state `b0` and any two consecutive ChangeToBid
records `e1`, `e2` (only records of other kinds in between) with different bid prices,
ingesting `e2` appends exactly one value to the tick-interval series. The value is
`e2.timestamp` minus the timestamp of the bid baseline: that of `e1` when `e1` found no
baseline or a baseline of another price, and that of the earlier baseline when `e1`
repeated its price (such a record does not refresh the baseline). -/
theorem C2_tick_measured_from_baseline (b0 : OrderBook) (e1 e2 : Order) (mid : List Order)
    (h1 : e1.getType = UpdateType.ChangeToBid) (h2 : e2.getType = UpdateType.ChangeToBid)
    (hmid : ∀ o ∈ mid, o.getType ≠ UpdateType.ChangeToBid)
    (hne : e1.getBidPrice ≠ e2.getBidPrice) :
    (((b0.addOrder e1).addOrders mid).addOrder e2).timeTickDifferences =
      ((b0.addOrder e1).addOrders mid).timeTickDifferences
        ++ [e2.getTimePoint -
            (match b0.bidPrices with
              | top :: _ =>
                if e1.getBidPrice = top.1 then top.2.getTimePoint else e1.getTimePoint
              | [] => e1.getTimePoint)] := by
  obtain ⟨base, rest, hstack, hbase⟩ := OrderBook.addOrder_bid_top b0 e1 h1
  have hmidstack := OrderBook.addOrders_no_bid mid (b0.addOrder e1) hmid
  simp only [Order.getType, Order.getTimePoint, Order.getBidPrice] at h2 hne ⊢
  rw [OrderBook.addOrder_timeTickDifferences, hmidstack, hstack, ← hbase]
  simp [h2, Ne.symm hne]

/-- Witness of C2 (amended): the scenario of the claim, where the second record repeats
the price of the first; the third record appends `8 - 0`. -/
theorem C2_tick_measured_from_baseline_witness :
    (((((OrderBook.new "XYZ").addOrder (sampleOrder "XYZ" .ChangeToBid 10 11 0)).addOrder
        (sampleOrder "XYZ" .ChangeToBid 10 11 5)).addOrders []).addOrder
        (sampleOrder "XYZ" .ChangeToBid (21/2) 11 8)).timeTickDifferences = [8] := by
  have h := C2_tick_measured_from_baseline
    ((OrderBook.new "XYZ").addOrder (sampleOrder "XYZ" .ChangeToBid 10 11 0))
    (sampleOrder "XYZ" .ChangeToBid 10 11 5) (sampleOrder "XYZ" .ChangeToBid (21/2) 11 8)
    [] (by decide) (by decide) (by simp) (by decide!)
  exact h.trans (by decide!)

/-- C3, the code at the failing inputs: after an ask change with bid 10 and ask 11 at
t=100, an ask change at t=105 that moves the ask price to 12 (bid still 10) appends no
tick interval, and one that keeps the ask price 11 (bid moved to 9) appends the
interval 5: the ask branch compares and stores the bid price. -/
theorem C3_ask_branch_compares_bid_price :
    (((OrderBook.new "XYZ").addOrder (sampleOrder "XYZ" .ChangeToAsk 10 11 100)).addOrder
        (sampleOrder "XYZ" .ChangeToAsk 10 12 105)).timeTickDifferences = [] ∧
    (((OrderBook.new "XYZ").addOrder (sampleOrder "XYZ" .ChangeToAsk 10 11 100)).addOrder
        (sampleOrder "XYZ" .ChangeToAsk 9 11 105)).timeTickDifferences = [5] := by
  decide!

/-- C4, as stated, fails: after a trade at t=100, a trade at t=50 has the negative
interval -50 against the last trade time, and ingesting it appends that value to the
trade-interval series instead of appending nothing. -/
theorem C4_counterexample_negative_interval_kept :
    (sampleOrder "ABC" .Trade 10 11 50).getTimePoint
        - ((OrderBook.new "ABC").addOrder (sampleOrder "ABC" .Trade 10 11 100)).previousTradeTime
      < 0 ∧
    (((OrderBook.new "ABC").addOrder (sampleOrder "ABC" .Trade 10 11 100)).addOrder
        (sampleOrder "ABC" .Trade 10 11 50)).timeDifferences = [-50] ∧
    (((OrderBook.new "ABC").addOrder (sampleOrder "ABC" .Trade 10 11 100)).addOrder
        (sampleOrder "ABC" .Trade 10 11 50)).timeDifferences ≠
      ((OrderBook.new "ABC").addOrder (sampleOrder "ABC" .Trade 10 11 100)).timeDifferences := by
  decide!

/-- C4, amended: ordering violations are stored, not skipped. For every ledger state,
a Trade record earlier than the (set) last trade time appends its negative interval to
the trade-interval series, and a ChangeToBid record whose bid price differs from the
bid baseline and which is earlier than the baseline appends its negative interval to
the tick-interval series; either way the other series is unchanged, the corresponding
last-seen state becomes the record and the order count grows by one. For a ChangeToAsk
record earlier than the ask baseline, the tick-interval series is unchanged or extended
by that negative interval, and the order count grows by one. -/
theorem C4_negative_interval_stored (b : OrderBook) (o : Order) :
    (o.getType = UpdateType.Trade → b.previousTradeTime ≠ time_point_default →
      o.getTimePoint < b.previousTradeTime →
        (b.addOrder o).timeDifferences
            = b.timeDifferences ++ [o.getTimePoint - b.previousTradeTime] ∧
          o.getTimePoint - b.previousTradeTime < 0 ∧
          (b.addOrder o).timeTickDifferences = b.timeTickDifferences ∧
          (b.addOrder o).previousTradeTime = o.getTimePoint ∧
          (b.addOrder o).get_orders_num = b.get_orders_num + 1) ∧
    (o.getType = UpdateType.ChangeToBid → ∀ top rest, b.bidPrices = top :: rest →
      o.getBidPrice ≠ top.1 → o.getTimePoint < top.2.getTimePoint →
        (b.addOrder o).timeTickDifferences
            = b.timeTickDifferences ++ [o.getTimePoint - top.2.getTimePoint] ∧
          o.getTimePoint - top.2.getTimePoint < 0 ∧
          (b.addOrder o).timeDifferences = b.timeDifferences ∧
          (b.addOrder o).bidPrices = (o.getBidPrice, o) :: b.bidPrices ∧
          (b.addOrder o).get_orders_num = b.get_orders_num + 1) ∧
    (o.getType = UpdateType.ChangeToAsk → ∀ top rest, b.askPrices = top :: rest →
      o.getTimePoint < top.2.getTimePoint →
        ((b.addOrder o).timeTickDifferences = b.timeTickDifferences ∨
          (b.addOrder o).timeTickDifferences
            = b.timeTickDifferences ++ [o.getTimePoint - top.2.getTimePoint]) ∧
          o.getTimePoint - top.2.getTimePoint < 0 ∧
          (b.addOrder o).timeDifferences = b.timeDifferences ∧
          (b.addOrder o).get_orders_num = b.get_orders_num + 1) := by
  simp only [Order.getType, Order.getTimePoint, Order.getBidPrice]
  refine ⟨?_, ?_, ?_⟩
  · intro ht hset hlt
    rw [OrderBook.addOrder_timeDifferences, OrderBook.addOrder_timeTickDifferences,
      OrderBook.addOrder_previousTradeTime]
    refine ⟨by simp [ht, hset], sub_neg.mpr hlt, by simp [ht], by simp [ht],
      OrderBook.get_orders_num_addOrder b o⟩
  · intro ht top rest hstack hne hlt
    rw [OrderBook.addOrder_timeDifferences, OrderBook.addOrder_timeTickDifferences,
      OrderBook.addOrder_bidPrices, hstack]
    refine ⟨by simp [ht, hne], sub_neg.mpr hlt, by simp [ht], by simp [ht, hne],
      OrderBook.get_orders_num_addOrder b o⟩
  · intro ht top rest hstack hlt
    rw [OrderBook.addOrder_timeDifferences, OrderBook.addOrder_timeTickDifferences, hstack]
    refine ⟨?_, sub_neg.mpr hlt, by simp [ht], OrderBook.get_orders_num_addOrder b o⟩
    by_cases hp : o.bid_price = top.1
    · left; simp [ht, hp]
    · right; simp [ht, hp]

/-- Witness of C4 (amended): a trade at t=50 after a trade at t=100, and a bid change
to price 11 at t=50 after a bid change to price 10 at t=100, each store -50. -/
theorem C4_negative_interval_stored_witness :
    (((OrderBook.new "ABC").addOrder (sampleOrder "ABC" .Trade 10 11 100)).addOrder
        (sampleOrder "ABC" .Trade 10 11 50)).timeDifferences = [-50] ∧
    (((OrderBook.new "ABC").addOrder (sampleOrder "ABC" .ChangeToBid 10 12 100)).addOrder
        (sampleOrder "ABC" .ChangeToBid 11 12 50)).timeTickDifferences = [-50] := by
  refine ⟨?_, ?_⟩
  · exact ((C4_negative_interval_stored
      ((OrderBook.new "ABC").addOrder (sampleOrder "ABC" .Trade 10 11 100))
      (sampleOrder "ABC" .Trade 10 11 50)).1 (by decide) (by decide!) (by decide!)).1.trans
      (by decide!)
  · exact ((C4_negative_interval_stored
      ((OrderBook.new "ABC").addOrder (sampleOrder "ABC" .ChangeToBid 10 12 100))
      (sampleOrder "ABC" .ChangeToBid 11 12 50)).2.1 (by decide)
      (10, sampleOrder "ABC" .ChangeToBid 10 12 100) [] (by decide!) (by decide!)
      (by decide!)).1.trans (by decide!)

/-- C6: for every ledger state `b0` and any two consecutive ChangeToBid records `e1`,
`e2` (only records of other kinds in between) that carry the same bid price, ingesting
`e2` leaves the tick-interval series unchanged. -/
theorem C6_duplicate_bid_no_tick (b0 : OrderBook) (e1 e2 : Order) (mid : List Order)
    (h1 : e1.getType = UpdateType.ChangeToBid) (h2 : e2.getType = UpdateType.ChangeToBid)
    (hmid : ∀ o ∈ mid, o.getType ≠ UpdateType.ChangeToBid)
    (heq : e1.getBidPrice = e2.getBidPrice) :
    (((b0.addOrder e1).addOrders mid).addOrder e2).timeTickDifferences =
      ((b0.addOrder e1).addOrders mid).timeTickDifferences := by
  obtain ⟨base, rest, hstack, _⟩ := OrderBook.addOrder_bid_top b0 e1 h1
  have hmidstack := OrderBook.addOrders_no_bid mid (b0.addOrder e1) hmid
  simp only [Order.getType, Order.getBidPrice] at h2 heq
  rw [OrderBook.addOrder_timeTickDifferences, hmidstack, hstack]
  simp [h2, heq]

/-- Witness of C6: bid changes at price 10 at t=0 and t=5 with a trade in between; the
tick-interval series stays empty. -/
theorem C6_duplicate_bid_no_tick_witness :
    ((((OrderBook.new "XYZ").addOrder (sampleOrder "XYZ" .ChangeToBid 10 11 0)).addOrders
        [sampleOrder "XYZ" .Trade 10 11 3]).addOrder
        (sampleOrder "XYZ" .ChangeToBid 10 11 5)).timeTickDifferences = [] := by
  have h := C6_duplicate_bid_no_tick (OrderBook.new "XYZ")
    (sampleOrder "XYZ" .ChangeToBid 10 11 0) (sampleOrder "XYZ" .ChangeToBid 10 11 5)
    [sampleOrder "XYZ" .Trade 10 11 3] (by decide) (by decide) (by decide) (by decide!)
  exact h.trans (by decide!)

/-- C7: for every ledger state and every record, `addOrder` appends exactly one value to
the spread series, `askPrice - bidPrice` of the record, and increases the order count
by exactly one; after any sequence of ingests into a fresh ledger the length of the
spread series equals `get_orders_num()`. -/
theorem C7_spread_appended_and_counted (b : OrderBook) (o : Order) :
    (b.addOrder o).spreadList = b.spreadList ++ [o.getAskPrice - o.getBidPrice] ∧
      (b.addOrder o).get_orders_num = b.get_orders_num + 1 ∧
      ∀ (symbol : String) (os : List Order),
        (((OrderBook.new symbol).addOrders os).spreadList.length : Int)
          = ((OrderBook.new symbol).addOrders os).get_orders_num := by
  refine ⟨OrderBook.addOrder_spreadList b o, OrderBook.get_orders_num_addOrder b o, ?_⟩
  intro symbol os
  have h := OrderBook.addOrders_lengths os (OrderBook.new symbol)
  rw [OrderBook.get_orders_num, h.1, h.2]
  rfl

/-! ## The claims on the table -/

/-- C5, as stated, fails: two trades of symbol AAA at the same second record the trade
interval 0, so a ledger has a trade interval, yet `getLongestTimeTrades` returns the
pair of the empty symbol and 0, and the empty symbol is not present in the table. -/
theorem C5_counterexample_zero_interval :
    (mapFind (OrderTable.empty.processOrders
        [sampleOrder "AAA" .Trade 10 11 100, sampleOrder "AAA" .Trade 10 11 100]).table
        "AAA").map (fun b => b.timeDifferences) = some [0] ∧
    (OrderTable.empty.processOrders
        [sampleOrder "AAA" .Trade 10 11 100, sampleOrder "AAA" .Trade 10 11 100]
      ).getLongestTimeTrades = ("", 0) ∧
    (OrderTable.empty.processOrders
        [sampleOrder "AAA" .Trade 10 11 100, sampleOrder "AAA" .Trade 10 11 100]
      ).is_symbol_exists "" = false := by
  decide!

/-- C5, amended: for every table reached by `processOrder` from the empty table in which
at least one ledger has recorded a positive trade interval, `getLongestTimeTrades`
returns a pair `(s, v)` such that `s` is a symbol present in the table, `v` is
`get_largest` of the trade-interval series of `s`, which is an element of that series
bounding all its elements, and no ledger in the table has a greater trade-interval
maximum or a greater trade interval; and for every such table in which every recorded
trade interval is 0 or negative, the scan keeps its initial pair of the empty symbol
and 0. -/
theorem C5_longest_trade_gap (os : List Order) :
    ((∃ s b d, mapFind (OrderTable.empty.processOrders os).table s = some b ∧
        d ∈ b.timeDifferences ∧ (0 : Int) < d) →
      ∃ b, mapFind (OrderTable.empty.processOrders os).table
            (OrderTable.empty.processOrders os).getLongestTimeTrades.1 = some b ∧
        (OrderTable.empty.processOrders os).getLongestTimeTrades.2
          = OrderBook.get_largest b.timeDifferences ∧
        (∃ d ∈ b.timeDifferences,
          (OrderTable.empty.processOrders os).getLongestTimeTrades.2 = (d : ℚ)) ∧
        (∀ d ∈ b.timeDifferences,
          (d : ℚ) ≤ (OrderTable.empty.processOrders os).getLongestTimeTrades.2) ∧
        ∀ s2 b2, mapFind (OrderTable.empty.processOrders os).table s2 = some b2 →
          OrderBook.get_largest b2.timeDifferences
              ≤ (OrderTable.empty.processOrders os).getLongestTimeTrades.2 ∧
            ∀ d ∈ b2.timeDifferences,
              (d : ℚ) ≤ (OrderTable.empty.processOrders os).getLongestTimeTrades.2) ∧
    ((∀ s b, mapFind (OrderTable.empty.processOrders os).table s = some b →
        ∀ d ∈ b.timeDifferences, d ≤ (0 : Int)) →
      (OrderTable.empty.processOrders os).getLongestTimeTrades = ("", 0)) := by
  obtain ⟨hasc, hfind⟩ := OrderTable.processOrders_table os
  -- every stored book carries the reduction of its series
  have hstored : ∀ s2 b2, mapFind (OrderTable.empty.processOrders os).table s2 = some b2 →
      b2.get_longest_time_trades = OrderBook.get_largest b2.timeDifferences := by
    intro s2 b2 hb2
    rw [hfind s2] at hb2
    split_ifs at hb2
    have hb : b2 = (OrderBook.new s2).addOrders (os.filter (fun o => o.getSymbol = s2)) :=
      (Option.some.inj hb2).symm
    rw [hb]
    exact OrderBook.addOrders_longest_time_trades s2 _
  obtain ⟨_, hub, hkeep, hhit⟩ := longest_scan OrderBook.get_longest_time_trades
    (OrderTable.empty.processOrders os).table ("", 0)
  have hub2 : ∀ s2 b2, mapFind (OrderTable.empty.processOrders os).table s2 = some b2 →
      OrderBook.get_largest b2.timeDifferences
        ≤ (OrderTable.empty.processOrders os).getLongestTimeTrades.2 := by
    intro s2 b2 hb2
    rw [← hstored s2 b2 hb2]
    exact hub (s2, b2) (mapFind_some_mem hb2)
  constructor
  · intro h
    obtain ⟨s, b, d, hb, hd, hpos⟩ := h
    have hbne : b.timeDifferences ≠ [] := List.ne_nil_of_mem hd
    have hbpos : (0 : ℚ) < b.get_longest_time_trades := by
      rw [hstored s b hb]
      have : ((0 : Int) : ℚ) < (d : ℚ) := by exact_mod_cast hpos
      exact lt_of_lt_of_le (by simpa using this) ((get_largest_is_max _ hbne).2 d hd)
    obtain ⟨p, hp, hres⟩ := hhit ⟨(s, b), mapFind_some_mem hb, hbpos⟩
    have hres2 : (OrderTable.empty.processOrders os).getLongestTimeTrades
        = (p.1, p.2.get_longest_time_trades) := hres
    have hpfind : mapFind (OrderTable.empty.processOrders os).table p.1 = some p.2 :=
      (mem_iff_mapFind hasc p.1 p.2).mp hp
    have hval : (OrderTable.empty.processOrders os).getLongestTimeTrades.2
        = OrderBook.get_largest p.2.timeDifferences := by
      rw [hres2]
      exact hstored p.1 p.2 hpfind
    have hpne : p.2.timeDifferences ≠ [] := by
      intro hnil
      have hle := hub2 s b hb
      rw [hval, hnil, get_largest_nil, ← hstored s b hb] at hle
      exact absurd hbpos (not_lt.mpr hle)
    refine ⟨p.2, ?_, hval, ?_, ?_, ?_⟩
    · rw [hres2]; exact hpfind
    · rw [hval]; exact (get_largest_is_max _ hpne).1
    · rw [hval]; exact (get_largest_is_max _ hpne).2
    · intro s2 b2 hb2
      refine ⟨hub2 s2 b2 hb2, fun d2 hd2 => ?_⟩
      exact le_trans ((get_largest_is_max _ (List.ne_nil_of_mem hd2)).2 d2 hd2)
        (hub2 s2 b2 hb2)
  · intro hnonpos
    apply hkeep
    intro p hp
    have hpfind : mapFind (OrderTable.empty.processOrders os).table p.1 = some p.2 :=
      (mem_iff_mapFind hasc p.1 p.2).mp hp
    rw [hstored p.1 p.2 hpfind]
    show OrderBook.get_largest p.2.timeDifferences ≤ (0 : ℚ)
    by_cases hnil : p.2.timeDifferences = []
    · rw [hnil, get_largest_nil]
    · obtain ⟨d, hd, hval⟩ := (get_largest_is_max _ hnil).1
      rw [hval]
      exact_mod_cast hnonpos p.1 p.2 hpfind d hd

/-- Witness of C5 (amended): AAA with trade-interval maximum 100 and BBB with maximum
250 give the pair of BBB and 250; a table whose only trade interval is -50 gives the
pair of the empty symbol and 0. -/
theorem C5_longest_trade_gap_witness :
    ((OrderTable.empty.processOrders
        [sampleOrder "AAA" .Trade 10 11 1000, sampleOrder "BBB" .Trade 20 21 1000,
         sampleOrder "AAA" .Trade 10 11 1100, sampleOrder "BBB" .Trade 20 21 1250]
      ).getLongestTimeTrades = ("BBB", 250) ∧
    ∃ b, mapFind (OrderTable.empty.processOrders
        [sampleOrder "AAA" .Trade 10 11 1000, sampleOrder "BBB" .Trade 20 21 1000,
         sampleOrder "AAA" .Trade 10 11 1100, sampleOrder "BBB" .Trade 20 21 1250]).table
        "BBB" = some b ∧ OrderBook.get_largest b.timeDifferences = 250) ∧
    (OrderTable.empty.processOrders
        [sampleOrder "AAA" .Trade 10 11 100, sampleOrder "AAA" .Trade 10 11 50]
      ).getLongestTimeTrades = ("", 0) := by
  have hres : (OrderTable.empty.processOrders
        [sampleOrder "AAA" .Trade 10 11 1000, sampleOrder "BBB" .Trade 20 21 1000,
         sampleOrder "AAA" .Trade 10 11 1100, sampleOrder "BBB" .Trade 20 21 1250]
      ).getLongestTimeTrades = ("BBB", 250) := by decide!
  obtain ⟨b, hb, hv, _⟩ := (C5_longest_trade_gap
    [sampleOrder "AAA" .Trade 10 11 1000, sampleOrder "BBB" .Trade 20 21 1000,
     sampleOrder "AAA" .Trade 10 11 1100, sampleOrder "BBB" .Trade 20 21 1250]).1
    ⟨"AAA", (OrderBook.new "AAA").addOrders
        [sampleOrder "AAA" .Trade 10 11 1000, sampleOrder "AAA" .Trade 10 11 1100],
      100, by decide!, by decide!, by decide⟩
  rw [hres] at hb hv
  refine ⟨⟨hres, b, hb, hv.symm⟩, ?_⟩
  apply (C5_longest_trade_gap
    [sampleOrder "AAA" .Trade 10 11 100, sampleOrder "AAA" .Trade 10 11 50]).2
  intro s b hb d hd
  have hmem := mapFind_some_mem hb
  have htab : (OrderTable.empty.processOrders
      [sampleOrder "AAA" .Trade 10 11 100, sampleOrder "AAA" .Trade 10 11 50]).table =
      [("AAA", (OrderBook.new "AAA").addOrders
          [sampleOrder "AAA" .Trade 10 11 100, sampleOrder "AAA" .Trade 10 11 50])] := by
    decide!
  have hser : ((OrderBook.new "AAA").addOrders
      [sampleOrder "AAA" .Trade 10 11 100, sampleOrder "AAA" .Trade 10 11 50]).timeDifferences
      = [-50] := by decide!
  rw [htab] at hmem
  simp only [List.mem_singleton, Prod.mk.injEq] at hmem
  rw [hmem.2, hser] at hd
  simp only [List.mem_singleton] at hd
  rw [hd]
  decide

/-- C8: routing is a per-symbol partition. For every finite sequence of records fed to
`processOrder` from the empty table and every symbol `s` occurring in it, the ledger
stored under `s` is the one obtained from a fresh `OrderBook(s)` by `addOrder` on the
subsequence of the records of symbol `s`, in order; and on every table, processing a
record of another symbol leaves the ledger under `s` unchanged. -/
theorem C8_routing_partition (os : List Order) (s : String)
    (hs : s ∈ os.map Order.getSymbol) :
    mapFind (OrderTable.empty.processOrders os).table s =
        some ((OrderBook.new s).addOrders (os.filter (fun o => o.getSymbol = s))) ∧
      ∀ (t : OrderTable) (o : Order), o.getSymbol ≠ s →
        mapFind (t.processOrder o).table s = mapFind t.table s := by
  refine ⟨?_, fun t o hne => OrderTable.processOrder_other t o s (Ne.symm hne)⟩
  rw [(OrderTable.processOrders_table os).2 s, if_pos hs]

/-- Witness of C8: records of AAA, BBB, AAA; the ledger of AAA is built from the two
records of AAA. -/
theorem C8_routing_partition_witness :
    mapFind (OrderTable.empty.processOrders
        [sampleOrder "AAA" .Trade 10 11 100, sampleOrder "BBB" .ChangeToBid 20 21 105,
         sampleOrder "AAA" .Trade 10 11 110]).table "AAA" =
      some ((OrderBook.new "AAA").addOrders
        [sampleOrder "AAA" .Trade 10 11 100, sampleOrder "AAA" .Trade 10 11 110]) :=
  (C8_routing_partition
    [sampleOrder "AAA" .Trade 10 11 100, sampleOrder "BBB" .ChangeToBid 20 21 105,
     sampleOrder "AAA" .Trade 10 11 110] "AAA" (by decide!)).1.trans (by decide!)

/-- C9: for every finite sequence of records passed to `processOrder` from the empty
table, `getTotalOrders()` equals the sum of `get_orders_num()` over all ledgers in the
table and equals the number of `processOrder` calls made (without `int` overflow). -/
theorem C9_total_orders (os : List Order) :
    (OrderTable.empty.processOrders os).getTotalOrders =
        ((OrderTable.empty.processOrders os).table.map (fun p => p.2.get_orders_num)).sum ∧
      (OrderTable.empty.processOrders os).getTotalOrders = (os.length : Int) := by
  rw [OrderTable.getTotalOrders_eq_sum]
  exact ⟨rfl, OrderTable.sum_orders_processOrders os⟩

/-- C10: for every finite sequence of records passed to `processOrder` from the empty
table, `getSymbolsNum()` equals the number of distinct symbols occurring in the
sequence, and `is_symbol_exists(s)` is true exactly for those symbols. -/
theorem C10_symbols (os : List Order) :
    (OrderTable.empty.processOrders os).getSymbolsNum
        = (((os.map Order.getSymbol).dedup.length : Nat) : Int) ∧
      ∀ s : String, (OrderTable.empty.processOrders os).is_symbol_exists s = true ↔
        s ∈ os.map Order.getSymbol := by
  obtain ⟨hasc, hfind⟩ := OrderTable.processOrders_table os
  have hexists : ∀ s : String, (OrderTable.empty.processOrders os).is_symbol_exists s = true ↔
      s ∈ os.map Order.getSymbol := by
    intro s
    rw [OrderTable.is_symbol_exists, hfind s]
    split_ifs with hmem <;> simp [hmem]
  refine ⟨?_, hexists⟩
  have hnodup : ((OrderTable.empty.processOrders os).table.map Prod.fst).Nodup := by
    unfold KeysAscending at hasc
    rw [List.Nodup, List.pairwise_map]
    exact hasc.imp (fun h => ne_of_lt h)
  have hset : ((OrderTable.empty.processOrders os).table.map Prod.fst).toFinset
      = (os.map Order.getSymbol).toFinset := by
    ext s
    rw [List.mem_toFinset, List.mem_toFinset, ← mapFind_isSome_iff]
    exact hexists s
  have hlen : (OrderTable.empty.processOrders os).table.length
      = (os.map Order.getSymbol).dedup.length := by
    rw [← List.card_toFinset, ← hset, List.toFinset_card_of_nodup hnodup, List.length_map]
  simp [OrderTable.getSymbolsNum, hlen]

/-! ## Stored statistics and growth of the series -/

namespace OrderBook

/-- After `addOrder` each of the eight stored statistics is the reduction of its series
as the series stands after the call. -/
theorem addOrder_stats (b : OrderBook) (o : Order) :
    (addOrder b o).mean_time_trades = get_mean (addOrder b o).timeDifferences ∧
    (addOrder b o).median_time_trades = get_median (addOrder b o).timeDifferences ∧
    (addOrder b o).longest_time_trades = get_largest (addOrder b o).timeDifferences ∧
    (addOrder b o).mean_time_tick = get_mean (addOrder b o).timeTickDifferences ∧
    (addOrder b o).median_time_tick = get_median (addOrder b o).timeTickDifferences ∧
    (addOrder b o).longest_time_tick = get_largest (addOrder b o).timeTickDifferences ∧
    (addOrder b o).mean_spread = get_mean_spread_of (addOrder b o).spreadList ∧
    (addOrder b o).median_spread = get_median_spread_of (addOrder b o).spreadList := by
  unfold addOrder analyze getTimeDifferencesTrade getTickTimeDifferences getBidAskSpreadList
  simp only []
  split_ifs <;> (try split) <;> (try split_ifs) <;> simp_all

theorem new_stats (symbol : String) :
    (new symbol).mean_time_trades = get_mean (new symbol).timeDifferences ∧
    (new symbol).median_time_trades = get_median (new symbol).timeDifferences ∧
    (new symbol).longest_time_trades = get_largest (new symbol).timeDifferences ∧
    (new symbol).mean_time_tick = get_mean (new symbol).timeTickDifferences ∧
    (new symbol).median_time_tick = get_median (new symbol).timeTickDifferences ∧
    (new symbol).longest_time_tick = get_largest (new symbol).timeTickDifferences ∧
    (new symbol).mean_spread = get_mean_spread_of (new symbol).spreadList ∧
    (new symbol).median_spread = get_median_spread_of (new symbol).spreadList := by
  simp [new, get_mean, get_median, get_largest, get_mean_spread_of, get_median_spread_of,
    sortSeconds]

theorem addOrders_stats (symbol : String) (os : List Order) :
    ((new symbol).addOrders os).mean_time_trades
      = get_mean ((new symbol).addOrders os).timeDifferences ∧
    ((new symbol).addOrders os).median_time_trades
      = get_median ((new symbol).addOrders os).timeDifferences ∧
    ((new symbol).addOrders os).longest_time_trades
      = get_largest ((new symbol).addOrders os).timeDifferences ∧
    ((new symbol).addOrders os).mean_time_tick
      = get_mean ((new symbol).addOrders os).timeTickDifferences ∧
    ((new symbol).addOrders os).median_time_tick
      = get_median ((new symbol).addOrders os).timeTickDifferences ∧
    ((new symbol).addOrders os).longest_time_tick
      = get_largest ((new symbol).addOrders os).timeTickDifferences ∧
    ((new symbol).addOrders os).mean_spread
      = get_mean_spread_of ((new symbol).addOrders os).spreadList ∧
    ((new symbol).addOrders os).median_spread
      = get_median_spread_of ((new symbol).addOrders os).spreadList := by
  induction os using List.reverseRecOn with
  | nil => exact new_stats symbol
  | append_singleton os o _ =>
    rw [addOrders_append, addOrders_cons, addOrders_nil]
    exact addOrder_stats _ o

/-- A ledger whose last trade time is unset and whose trade series is empty keeps an
empty trade series over any orders with at most one trade among them. -/
theorem addOrders_one_trade (os : List Order) (b : OrderBook)
    (hprev : b.previousTradeTime = time_point_default) (hnil : b.timeDifferences = [])
    (hcount : os.countP (fun o => o.getType = UpdateType.Trade) ≤ 1) :
    (addOrders b os).timeDifferences = [] := by
  induction os generalizing b with
  | nil => exact hnil
  | cons o os ih =>
    rw [addOrders_cons]
    by_cases ho : o.type = UpdateType.Trade
    · have hrest : ∀ x ∈ os, x.getType ≠ UpdateType.Trade := by
        intro x hx hxt
        have h1 : os.countP (fun o => o.getType = UpdateType.Trade) = 0 := by
          simp [List.countP_cons, ho] at hcount
          simpa using hcount
        have h2 := List.countP_eq_zero.mp h1 x hx
        simp at h2 hxt
        exact h2 hxt
      rw [(addOrders_no_trade os _ hrest).1, addOrder_timeDifferences]
      simp [ho, hprev, hnil]
    · apply ih
      · rw [addOrder_previousTradeTime]; simp [ho, hprev]
      · rw [addOrder_timeDifferences]; simp [ho, hnil]
      · simpa [List.countP_cons, ho] using hcount

end OrderBook

/-- C11: the derived statistics never drift from their series. After every call of
`addOrder`, on any ledger state, the eight stored statistics equal the reductions of
the current series: mean, median and longest trade time are `get_mean`, `get_median`
and `get_largest` of the trade-interval series, the tick statistics are the same
reductions of the tick-interval series, and mean and median spread are the spread
overloads of `get_mean` and `get_median` on the spread series; the same holds for a
ledger created by `OrderBook(symbol)` after any sequence of calls, the empty one
included. -/
theorem C11_stats_equal_reductions (b : OrderBook) (o : Order) :
    ((b.addOrder o).mean_time_trades = OrderBook.get_mean (b.addOrder o).timeDifferences ∧
      (b.addOrder o).median_time_trades = OrderBook.get_median (b.addOrder o).timeDifferences ∧
      (b.addOrder o).longest_time_trades
        = OrderBook.get_largest (b.addOrder o).timeDifferences ∧
      (b.addOrder o).mean_time_tick = OrderBook.get_mean (b.addOrder o).timeTickDifferences ∧
      (b.addOrder o).median_time_tick
        = OrderBook.get_median (b.addOrder o).timeTickDifferences ∧
      (b.addOrder o).longest_time_tick
        = OrderBook.get_largest (b.addOrder o).timeTickDifferences ∧
      (b.addOrder o).mean_spread = OrderBook.get_mean_spread_of (b.addOrder o).spreadList ∧
      (b.addOrder o).median_spread
        = OrderBook.get_median_spread_of (b.addOrder o).spreadList) ∧
    ∀ (symbol : String) (os : List Order),
      ((OrderBook.new symbol).addOrders os).mean_time_trades
        = OrderBook.get_mean ((OrderBook.new symbol).addOrders os).timeDifferences ∧
      ((OrderBook.new symbol).addOrders os).median_time_trades
        = OrderBook.get_median ((OrderBook.new symbol).addOrders os).timeDifferences ∧
      ((OrderBook.new symbol).addOrders os).longest_time_trades
        = OrderBook.get_largest ((OrderBook.new symbol).addOrders os).timeDifferences ∧
      ((OrderBook.new symbol).addOrders os).mean_time_tick
        = OrderBook.get_mean ((OrderBook.new symbol).addOrders os).timeTickDifferences ∧
      ((OrderBook.new symbol).addOrders os).median_time_tick
        = OrderBook.get_median ((OrderBook.new symbol).addOrders os).timeTickDifferences ∧
      ((OrderBook.new symbol).addOrders os).longest_time_tick
        = OrderBook.get_largest ((OrderBook.new symbol).addOrders os).timeTickDifferences ∧
      ((OrderBook.new symbol).addOrders os).mean_spread
        = OrderBook.get_mean_spread_of ((OrderBook.new symbol).addOrders os).spreadList ∧
      ((OrderBook.new symbol).addOrders os).median_spread
        = OrderBook.get_median_spread_of ((OrderBook.new symbol).addOrders os).spreadList :=
  ⟨OrderBook.addOrder_stats b o, fun symbol os => OrderBook.addOrders_stats symbol os⟩

/-- C13: for every fresh ledger and every sequence of records with exactly one Trade
record among them (the others being ChangeToBid or ChangeToAsk records), after
ingesting the sequence the trade-interval series is empty and the mean, median and
longest trade interval are all 0. -/
theorem C13_single_trade_no_interval (symbol : String) (os : List Order)
    (hone : os.countP (fun o => o.getType = UpdateType.Trade) = 1) :
    ((OrderBook.new symbol).addOrders os).timeDifferences = [] ∧
      ((OrderBook.new symbol).addOrders os).mean_time_trades = 0 ∧
      ((OrderBook.new symbol).addOrders os).median_time_trades = 0 ∧
      ((OrderBook.new symbol).addOrders os).longest_time_trades = 0 := by
  have hnil : ((OrderBook.new symbol).addOrders os).timeDifferences = [] :=
    OrderBook.addOrders_one_trade os (OrderBook.new symbol) rfl rfl (le_of_eq hone)
  obtain ⟨h1, h2, h3, _⟩ := OrderBook.addOrders_stats symbol os
  rw [hnil] at h1 h2 h3
  refine ⟨hnil, ?_, ?_, ?_⟩
  · rw [h1]; simp [OrderBook.get_mean]
  · rw [h2]; simp [OrderBook.get_median]
  · rw [h3]; exact get_largest_nil

/-- Witness of C13: a bid change, the one trade, an ask change. -/
theorem C13_single_trade_no_interval_witness :
    ((OrderBook.new "ABC").addOrders
        [sampleOrder "ABC" .ChangeToBid 10 11 100, sampleOrder "ABC" .Trade 10 11 105,
         sampleOrder "ABC" .ChangeToAsk 10 12 110]).timeDifferences = [] ∧
      ((OrderBook.new "ABC").addOrders
        [sampleOrder "ABC" .ChangeToBid 10 11 100, sampleOrder "ABC" .Trade 10 11 105,
         sampleOrder "ABC" .ChangeToAsk 10 12 110]).mean_time_trades = 0 ∧
      ((OrderBook.new "ABC").addOrders
        [sampleOrder "ABC" .ChangeToBid 10 11 100, sampleOrder "ABC" .Trade 10 11 105,
         sampleOrder "ABC" .ChangeToAsk 10 12 110]).median_time_trades = 0 ∧
      ((OrderBook.new "ABC").addOrders
        [sampleOrder "ABC" .ChangeToBid 10 11 100, sampleOrder "ABC" .Trade 10 11 105,
         sampleOrder "ABC" .ChangeToAsk 10 12 110]).longest_time_trades = 0 :=
  C13_single_trade_no_interval "ABC"
    [sampleOrder "ABC" .ChangeToBid 10 11 100, sampleOrder "ABC" .Trade 10 11 105,
     sampleOrder "ABC" .ChangeToAsk 10 12 110] (by decide)

/-- C18: the three series only grow. For every ledger state and every record, after
`addOrder` the previous trade-interval series, tick-interval series and spread series
are each a prefix of the new one; the trade-interval and the tick-interval series each
gain at most one element and the spread series gains exactly one. -/
theorem C18_series_only_grow (b : OrderBook) (o : Order) :
    (b.timeDifferences <+: (b.addOrder o).timeDifferences ∧
      b.timeTickDifferences <+: (b.addOrder o).timeTickDifferences ∧
      b.spreadList <+: (b.addOrder o).spreadList) ∧
    (b.addOrder o).timeDifferences.length ≤ b.timeDifferences.length + 1 ∧
    (b.addOrder o).timeTickDifferences.length ≤ b.timeTickDifferences.length + 1 ∧
    (b.addOrder o).spreadList.length = b.spreadList.length + 1 := by
  rw [OrderBook.addOrder_timeDifferences, OrderBook.addOrder_timeTickDifferences,
    OrderBook.addOrder_spreadList]
  refine ⟨⟨?_, ?_, List.prefix_append _ _⟩, ?_, ?_, by simp⟩
  · split_ifs
    · exact List.prefix_append _ _
    · exact List.prefix_refl _
  · split_ifs <;> (try split) <;> (try split_ifs) <;>
      first | exact List.prefix_append _ _ | exact List.prefix_refl _
  · split_ifs <;> simp
  · split_ifs <;> (try split) <;> (try split_ifs) <;> simp

namespace OrderBook

theorem inPastOf_addOrder (b : OrderBook) (o : Order) (os : List Order)
    (hinv : InPastOf b (o :: os))
    (hnext : ∀ x ∈ os, o.getTimePoint ≤ x.getTimePoint) :
    InPastOf (addOrder b o) os := by
  obtain ⟨hprev, hbid, hask, htrade, htick⟩ := hinv
  simp only [Order.getTimePoint] at hprev hbid hask hnext
  refine ⟨?_, ?_, ?_, ?_, ?_⟩
  · rw [addOrder_previousTradeTime]
    by_cases ht : o.type = UpdateType.Trade
    · right; simpa [ht] using hnext
    · rcases hprev with h | h
      · left; simpa [ht] using h
      · right; intro x hx; simpa [ht] using h x (List.mem_cons_of_mem _ hx)
  · intro top rest hstack x hx
    rw [addOrder_bidPrices] at hstack
    by_cases ht : o.type = UpdateType.ChangeToBid
    · rcases hb : b.bidPrices with _ | ⟨top0, rest0⟩
      · simp [ht, hb] at hstack
        rw [← hstack.1]
        exact hnext x hx
      · by_cases hp : o.bid_price = top0.1
        · simp [ht, hb, hp] at hstack
          rw [← hstack.1]
          exact hbid top0 rest0 hb x (List.mem_cons_of_mem _ hx)
        · simp [ht, hb, hp] at hstack
          rw [← hstack.1]
          exact hnext x hx
    · simp [ht] at hstack
      exact hbid top rest hstack x (List.mem_cons_of_mem _ hx)
  · intro top rest hstack x hx
    rw [addOrder_askPrices] at hstack
    by_cases ht : o.type = UpdateType.ChangeToAsk
    · rcases hb : b.askPrices with _ | ⟨top0, rest0⟩
      · simp [ht, hb] at hstack
        rw [← hstack.1]
        exact hnext x hx
      · by_cases hp : o.bid_price = top0.1
        · simp [ht, hb, hp] at hstack
          rw [← hstack.1]
          exact hask top0 rest0 hb x (List.mem_cons_of_mem _ hx)
        · simp [ht, hb, hp] at hstack
          rw [← hstack.1]
          exact hnext x hx
    · simp [ht] at hstack
      exact hask top rest hstack x (List.mem_cons_of_mem _ hx)
  · intro d hd
    rw [addOrder_timeDifferences] at hd
    split_ifs at hd with hc
    · rcases List.mem_append.mp hd with h | h
      · exact htrade d h
      · have hd2 : d = o.time - b.previousTradeTime := by simpa using h
        rcases hprev with h0 | hle
        · exact absurd h0 hc.2
        · have := hle o (List.mem_cons_self _ _)
          rw [hd2]; exact sub_nonneg.mpr this
    · exact htrade d hd
  · intro d hd
    rw [addOrder_timeTickDifferences] at hd
    by_cases ht : o.type = UpdateType.ChangeToBid
    · rcases hb : b.bidPrices with _ | ⟨top0, rest0⟩
      · simp [ht, hb] at hd
        exact htick d hd
      · by_cases hp : o.bid_price = top0.1
        · simp [ht, hb, hp] at hd
          exact htick d hd
        · simp [ht, hb, hp] at hd
          rcases hd with h | h
          · exact htick d h
          · rw [h]
            exact sub_nonneg.mpr (hbid top0 rest0 hb o (List.mem_cons_self _ _))
    · by_cases ht2 : o.type = UpdateType.ChangeToAsk
      · rcases hb : b.askPrices with _ | ⟨top0, rest0⟩
        · simp [ht2, hb] at hd
          exact htick d hd
        · by_cases hp : o.bid_price = top0.1
          · simp [ht2, hb, hp] at hd
            exact htick d hd
          · simp [ht2, hb, hp] at hd
            rcases hd with h | h
            · exact htick d h
            · rw [h]
              exact sub_nonneg.mpr (hask top0 rest0 hb o (List.mem_cons_self _ _))
      · simp [ht, ht2] at hd
        exact htick d hd

theorem inPastOf_addOrders (os : List Order) (b : OrderBook) (hinv : InPastOf b os)
    (hsorted : os.Pairwise (fun x y => x.getTimePoint ≤ y.getTimePoint)) :
    InPastOf (addOrders b os) [] := by
  induction os generalizing b with
  | nil => exact hinv
  | cons o os ih =>
    rw [addOrders_cons]
    have hp := List.pairwise_cons.mp hsorted
    exact ih _ (inPastOf_addOrder b o os hinv hp.1) hp.2

theorem get_largest_nonneg (l : List seconds) (h : ∀ d ∈ l, 0 ≤ d) : 0 ≤ get_largest l := by
  by_cases hl : l = []
  · rw [hl, get_largest_nil]
  · obtain ⟨d, hd, hval⟩ := (get_largest_is_max l hl).1
    rw [hval]
    exact_mod_cast h d hd

end OrderBook

/-- C19: for every sequence of records whose timestamps are non-decreasing in arrival
order, after ingesting the sequence into a fresh ledger every element of the
trade-interval series and of the tick-interval series is a non-negative number of
seconds, and the longest trade and tick intervals, as reduced from the series and as
stored, are non-negative. -/
theorem C19_nonnegative_intervals (symbol : String) (os : List Order)
    (hsorted : os.Pairwise (fun x y => x.getTimePoint ≤ y.getTimePoint)) :
    (∀ d ∈ ((OrderBook.new symbol).addOrders os).timeDifferences, 0 ≤ d) ∧
    (∀ d ∈ ((OrderBook.new symbol).addOrders os).timeTickDifferences, 0 ≤ d) ∧
    0 ≤ OrderBook.get_largest ((OrderBook.new symbol).addOrders os).timeDifferences ∧
    0 ≤ OrderBook.get_largest ((OrderBook.new symbol).addOrders os).timeTickDifferences ∧
    0 ≤ ((OrderBook.new symbol).addOrders os).longest_time_trades ∧
    0 ≤ ((OrderBook.new symbol).addOrders os).longest_time_tick := by
  have hstart : OrderBook.InPastOf (OrderBook.new symbol) os := by
    refine ⟨Or.inl rfl, ?_, ?_, ?_, ?_⟩ <;> simp [OrderBook.new]
  obtain ⟨_, _, _, htrade, htick⟩ := OrderBook.inPastOf_addOrders os _ hstart hsorted
  have hl1 := OrderBook.get_largest_nonneg _ htrade
  have hl2 := OrderBook.get_largest_nonneg _ htick
  obtain ⟨-, -, h3, -, -, h6, -⟩ := OrderBook.addOrders_stats symbol os
  exact ⟨htrade, htick, hl1, hl2, h3 ▸ hl1, h6 ▸ hl2⟩

/-- Witness of C19: trades at 100 and 100, bid changes at 100 and 130. -/
theorem C19_nonnegative_intervals_witness :
    (∀ d ∈ ((OrderBook.new "ABC").addOrders
        [sampleOrder "ABC" .Trade 10 11 100, sampleOrder "ABC" .ChangeToBid 10 11 100,
         sampleOrder "ABC" .Trade 10 11 100, sampleOrder "ABC" .ChangeToBid 9 11 130]
      ).timeDifferences, 0 ≤ d) ∧
    ((OrderBook.new "ABC").addOrders
        [sampleOrder "ABC" .Trade 10 11 100, sampleOrder "ABC" .ChangeToBid 10 11 100,
         sampleOrder "ABC" .Trade 10 11 100, sampleOrder "ABC" .ChangeToBid 9 11 130]
      ).timeTickDifferences = [30] :=
  ⟨(C19_nonnegative_intervals "ABC"
    [sampleOrder "ABC" .Trade 10 11 100, sampleOrder "ABC" .ChangeToBid 10 11 100,
     sampleOrder "ABC" .Trade 10 11 100, sampleOrder "ABC" .ChangeToBid 9 11 130]
    (by decide)).1, by decide!⟩

/-! ## The scenario of three trades on one day -/

theorem truncToInt_natCast (n : Nat) : truncToInt (n : ℚ) = (n : Int) := by
  simp [truncToInt]

theorem createTimePoint_natCast (year month day : Int) (n : Nat) :
    DataParser.createTimePoint year month day (n : ℚ)
      = 86400 * ((day - 1) + 30 * (month - 1) + 365 * (year - 1970)) + (n : Int) := by
  simp only [DataParser.createTimePoint, truncToInt_natCast]
  ring

/-- Among the calendar dates only 1 January 1970 has its midnight at the epoch. -/
theorem createTimePoint_midnight_ne_epoch (year month day : Int)
    (hm : 1 ≤ month ∧ month ≤ 12) (hd : 1 ≤ day ∧ day ≤ 31)
    (hne : ¬ (year = 1970 ∧ month = 1 ∧ day = 1)) :
    DataParser.createTimePoint year month day 0 ≠ time_point_default := by
  have h := createTimePoint_natCast year month day 0
  simp only [Nat.cast_zero, add_zero] at h
  rw [h]
  show (86400 * ((day - 1) + 30 * (month - 1) + 365 * (year - 1970)) : Int) ≠ 0
  rcases lt_trichotomy year 1970 with hy | hy | hy <;> omega

/-- C12, as stated, fails on 1 January 1970: the trade at second 0 of that day is at
the epoch, which the ledger reads as no previous trade, so the three trades end with
the trade-interval series `[15]` and mean trade interval 15, not `[10, 15]` and 12.5. -/
theorem C12_counterexample_first_day_of_1970 :
    ((OrderBook.new "ABC").addOrders
      [sampleOrder "ABC" .Trade 10 11 (DataParser.createTimePoint 1970 1 1 0),
       sampleOrder "ABC" .Trade 10 11 (DataParser.createTimePoint 1970 1 1 10),
       sampleOrder "ABC" .Trade 10 11 (DataParser.createTimePoint 1970 1 1 25)]
      ).timeDifferences = [15] ∧
    ((OrderBook.new "ABC").addOrders
      [sampleOrder "ABC" .Trade 10 11 (DataParser.createTimePoint 1970 1 1 0),
       sampleOrder "ABC" .Trade 10 11 (DataParser.createTimePoint 1970 1 1 10),
       sampleOrder "ABC" .Trade 10 11 (DataParser.createTimePoint 1970 1 1 25)]
      ).timeDifferences ≠ [10, 15] ∧
    ((OrderBook.new "ABC").addOrders
      [sampleOrder "ABC" .Trade 10 11 (DataParser.createTimePoint 1970 1 1 0),
       sampleOrder "ABC" .Trade 10 11 (DataParser.createTimePoint 1970 1 1 10),
       sampleOrder "ABC" .Trade 10 11 (DataParser.createTimePoint 1970 1 1 25)]
      ).mean_time_trades = 15 := by
  decide!

/-- C12, amended: a fresh ledger for symbol "ABC" that ingests three Trade records on
the same day at seconds 0, 10 and 25 past midnight, on a day whose midnight time point
is not the epoch, ends with trade-interval series `[10, 15]`, mean trade interval
12.5, median trade interval 12.5 and longest trade interval 15. -/
theorem C12_three_trades_scenario (year month day : Int) (e1 e2 e3 : Order)
    (hday : DataParser.createTimePoint year month day 0 ≠ time_point_default)
    (h1 : e1.getType = UpdateType.Trade) (h2 : e2.getType = UpdateType.Trade)
    (h3 : e3.getType = UpdateType.Trade)
    (t1 : e1.getTimePoint = DataParser.createTimePoint year month day 0)
    (t2 : e2.getTimePoint = DataParser.createTimePoint year month day 10)
    (t3 : e3.getTimePoint = DataParser.createTimePoint year month day 25) :
    ((OrderBook.new "ABC").addOrders [e1, e2, e3]).timeDifferences = [10, 15] ∧
      ((OrderBook.new "ABC").addOrders [e1, e2, e3]).mean_time_trades = 25 / 2 ∧
      ((OrderBook.new "ABC").addOrders [e1, e2, e3]).median_time_trades = 25 / 2 ∧
      ((OrderBook.new "ABC").addOrders [e1, e2, e3]).longest_time_trades = 15 := by
  have s1 := createTimePoint_natCast year month day 0
  have s2 := createTimePoint_natCast year month day 10
  have s3 := createTimePoint_natCast year month day 25
  simp only [Nat.cast_ofNat, Nat.cast_zero, add_zero] at s1 s2 s3
  simp only [Order.getType, Order.getTimePoint] at h1 h2 h3 t1 t2 t3
  rw [s1] at hday t1
  rw [s2] at t2
  rw [s3] at t3
  generalize (day - 1) + 30 * (month - 1) + 365 * (year - 1970) = k at hday t1 t2 t3
  have hne1 : e1.time ≠ time_point_default := by rw [t1]; exact hday
  have hne2 : e2.time ≠ time_point_default := by
    rw [t2]
    show (86400 * k + 10 : Int) ≠ 0
    omega
  have d1 : e2.time - e1.time = 10 := by rw [t1, t2]; ring
  have d2 : e3.time - e2.time = 15 := by rw [t2, t3]; ring
  have hseries : ((OrderBook.new "ABC").addOrders [e1, e2, e3]).timeDifferences = [10, 15] := by
    simp only [OrderBook.addOrders_cons, OrderBook.addOrders_nil,
      OrderBook.addOrder_timeDifferences, OrderBook.addOrder_previousTradeTime, h1, h2, h3]
    simp [hne1, hne2, d1, d2, OrderBook.new]
  obtain ⟨m1, m2, m3, _⟩ := OrderBook.addOrders_stats "ABC" [e1, e2, e3]
  rw [hseries] at m1 m2 m3
  refine ⟨hseries, ?_, ?_, ?_⟩
  · rw [m1]; decide!
  · rw [m2]; decide!
  · rw [m3]; decide!

/-- Witness of C12 (amended): the three trades on 20 April 2015. -/
theorem C12_three_trades_scenario_witness :
    ((OrderBook.new "ABC").addOrders
      [sampleOrder "ABC" .Trade 10 11 (DataParser.createTimePoint 2015 4 20 0),
       sampleOrder "ABC" .Trade 10 11 (DataParser.createTimePoint 2015 4 20 10),
       sampleOrder "ABC" .Trade 10 11 (DataParser.createTimePoint 2015 4 20 25)]
      ).timeDifferences = [10, 15] ∧
    ((OrderBook.new "ABC").addOrders
      [sampleOrder "ABC" .Trade 10 11 (DataParser.createTimePoint 2015 4 20 0),
       sampleOrder "ABC" .Trade 10 11 (DataParser.createTimePoint 2015 4 20 10),
       sampleOrder "ABC" .Trade 10 11 (DataParser.createTimePoint 2015 4 20 25)]
      ).mean_time_trades = 25 / 2 ∧
    ((OrderBook.new "ABC").addOrders
      [sampleOrder "ABC" .Trade 10 11 (DataParser.createTimePoint 2015 4 20 0),
       sampleOrder "ABC" .Trade 10 11 (DataParser.createTimePoint 2015 4 20 10),
       sampleOrder "ABC" .Trade 10 11 (DataParser.createTimePoint 2015 4 20 25)]
      ).median_time_trades = 25 / 2 ∧
    ((OrderBook.new "ABC").addOrders
      [sampleOrder "ABC" .Trade 10 11 (DataParser.createTimePoint 2015 4 20 0),
       sampleOrder "ABC" .Trade 10 11 (DataParser.createTimePoint 2015 4 20 10),
       sampleOrder "ABC" .Trade 10 11 (DataParser.createTimePoint 2015 4 20 25)]
      ).longest_time_trades = 15 :=
  C12_three_trades_scenario 2015 4 20
    (sampleOrder "ABC" .Trade 10 11 (DataParser.createTimePoint 2015 4 20 0))
    (sampleOrder "ABC" .Trade 10 11 (DataParser.createTimePoint 2015 4 20 10))
    (sampleOrder "ABC" .Trade 10 11 (DataParser.createTimePoint 2015 4 20 25))
    (by decide!) rfl rfl rfl rfl rfl rfl

/-! ## The cross-symbol scans -/

/-- Where the scan stops: it either keeps the pair it started from, or returns the first
entry that carries the greatest statistic, which is greater than the starting value. -/
theorem longest_scan_first (g : OrderBook → ℚ) (l : List (String × OrderBook))
    (init : String × ℚ) :
    l.foldl (fun acc pair => if g pair.2 > acc.2 then (pair.1, g pair.2) else acc) init = init ∨
    (init.2 < (l.foldl (fun acc pair => if g pair.2 > acc.2 then (pair.1, g pair.2) else acc)
        init).2 ∧
      ∃ pre p post, l = pre ++ p :: post ∧
        l.foldl (fun acc pair => if g pair.2 > acc.2 then (pair.1, g pair.2) else acc) init
          = (p.1, g p.2) ∧
        (∀ q ∈ pre, g q.2 < g p.2) ∧ (∀ q ∈ post, g q.2 ≤ g p.2)) := by
  induction l generalizing init with
  | nil => left; rfl
  | cons hd tl ih =>
    simp only [List.foldl_cons]
    by_cases hgt : g hd.2 > init.2
    · simp only [hgt, if_true]
      right
      rcases ih (hd.1, g hd.2) with hkeep | ⟨hlt, pre, p, post, hl, hres, hpre, hpost⟩
      · rw [hkeep]
        refine ⟨hgt, [], hd, tl, rfl, rfl, by simp, ?_⟩
        intro q hq
        have := (longest_scan g tl (hd.1, g hd.2)).2.1 q hq
        rw [hkeep] at this
        exact this
      · refine ⟨lt_trans hgt hlt, hd :: pre, p, post, by simp [hl], hres, ?_, hpost⟩
        intro q hq
        rw [hres] at hlt
        rcases List.mem_cons.mp hq with h | h
        · rw [h]; exact hlt
        · exact hpre q h
    · simp only [hgt, if_false]
      rcases ih init with hkeep | ⟨hlt, pre, p, post, hl, hres, hpre, hpost⟩
      · left; exact hkeep
      · right
        refine ⟨hlt, hd :: pre, p, post, by simp [hl], hres, ?_, hpost⟩
        intro q hq
        rw [hres] at hlt
        rcases List.mem_cons.mp hq with h | h
        · rw [h]; exact lt_of_le_of_lt (not_lt.mp hgt) hlt
        · exact hpre q h

/-- Every book stored in a table reached from the empty table carries the reductions of
its series. -/
theorem OrderTable.stored_stats (os : List Order) (s : String) (b : OrderBook)
    (hb : mapFind (OrderTable.empty.processOrders os).table s = some b) :
    b.get_longest_time_trades = OrderBook.get_largest b.timeDifferences ∧
      b.get_longest_time_tick = OrderBook.get_largest b.timeTickDifferences := by
  rw [(OrderTable.processOrders_table os).2 s] at hb
  split_ifs at hb
  have hbe : b = (OrderBook.new s).addOrders (os.filter (fun o => o.getSymbol = s)) :=
    (Option.some.inj hb).symm
  obtain ⟨-, -, h3, -, -, h6, -⟩ := OrderBook.addOrders_stats s
    (os.filter (fun o => o.getSymbol = s))
  rw [hbe]
  exact ⟨h3, h6⟩

/-- C14: for every table reached by `processOrder` from the empty table (the empty table
included) in which no ledger has any trade interval, `getLongestTimeTrades` returns the
pair of the empty symbol and 0; likewise `getLongestTimeTick` returns the pair of the
empty symbol and 0 when no ledger has any tick interval. -/
theorem C14_sentinel_when_no_interval (os : List Order) :
    ((∀ s b, mapFind (OrderTable.empty.processOrders os).table s = some b →
        b.timeDifferences = []) →
      (OrderTable.empty.processOrders os).getLongestTimeTrades = ("", 0)) ∧
    ((∀ s b, mapFind (OrderTable.empty.processOrders os).table s = some b →
        b.timeTickDifferences = []) →
      (OrderTable.empty.processOrders os).getLongestTimeTick = ("", 0)) := by
  have hasc := (OrderTable.processOrders_table os).1
  refine ⟨fun hnone => ?_, fun hnone => ?_⟩
  · refine (longest_scan OrderBook.get_longest_time_trades
      (OrderTable.empty.processOrders os).table ("", 0)).2.2.1 ?_
    intro p hp
    have hfind := (mem_iff_mapFind hasc p.1 p.2).mp hp
    rw [(OrderTable.stored_stats os p.1 p.2 hfind).1, hnone p.1 p.2 hfind, get_largest_nil]
  · refine (longest_scan OrderBook.get_longest_time_tick
      (OrderTable.empty.processOrders os).table ("", 0)).2.2.1 ?_
    intro p hp
    have hfind := (mem_iff_mapFind hasc p.1 p.2).mp hp
    rw [(OrderTable.stored_stats os p.1 p.2 hfind).2, hnone p.1 p.2 hfind, get_largest_nil]

/-- Witness of C14: the empty table, and a table with one trade and one bid change. -/
theorem C14_sentinel_when_no_interval_witness :
    (OrderTable.empty.processOrders []).getLongestTimeTrades = ("", 0) ∧
    (OrderTable.empty.processOrders
      [sampleOrder "AAA" .Trade 10 11 100, sampleOrder "BBB" .ChangeToBid 10 11 105]
      ).getLongestTimeTick = ("", 0) :=
  ⟨(C14_sentinel_when_no_interval []).1 (by
      intro s b hb
      exact absurd hb (by simp [OrderTable.processOrders, OrderTable.empty, mapFind])),
   (C14_sentinel_when_no_interval
      [sampleOrder "AAA" .Trade 10 11 100, sampleOrder "BBB" .ChangeToBid 10 11 105]).2 (by
      intro s b hb
      have hmem := mapFind_some_mem hb
      have htab : (OrderTable.empty.processOrders
          [sampleOrder "AAA" .Trade 10 11 100,
            sampleOrder "BBB" .ChangeToBid 10 11 105]).table =
          [("AAA", (OrderBook.new "AAA").addOrder (sampleOrder "AAA" .Trade 10 11 100)),
           ("BBB", (OrderBook.new "BBB").addOrder
              (sampleOrder "BBB" .ChangeToBid 10 11 105))] := by decide!
      rw [htab] at hmem
      simp only [List.mem_cons, Prod.mk.injEq, List.mem_singleton, List.not_mem_nil,
        or_false] at hmem
      rcases hmem with ⟨_, h⟩ | ⟨_, h⟩ <;> rw [h] <;> decide!)⟩

/-- C15: tie-break of `getLongestTimeTrades`. For every table reached by `processOrder`
from the empty table and every ledger `s1` whose trade-interval maximum is positive and
is the greatest in the table, the pair returned carries that maximum and the symbol of
the first entry in the iteration order of the table that has it; the iteration order
is ascending symbol order, so the symbol returned is not greater than `s1`: of the
tied symbols the smallest is returned. -/
theorem C15_tie_break_first_in_order (os : List Order) (s1 : String) (b1 : OrderBook)
    (h1 : mapFind (OrderTable.empty.processOrders os).table s1 = some b1)
    (hpos : 0 < OrderBook.get_largest b1.timeDifferences)
    (hmax : ∀ s2 b2, mapFind (OrderTable.empty.processOrders os).table s2 = some b2 →
      OrderBook.get_largest b2.timeDifferences ≤ OrderBook.get_largest b1.timeDifferences) :
    (OrderTable.empty.processOrders os).getLongestTimeTrades.2
        = OrderBook.get_largest b1.timeDifferences ∧
      KeysAscending (OrderTable.empty.processOrders os).table ∧
      (∃ pre b post,
        (OrderTable.empty.processOrders os).table
          = pre ++ ((OrderTable.empty.processOrders os).getLongestTimeTrades.1, b) :: post ∧
        OrderBook.get_largest b.timeDifferences = OrderBook.get_largest b1.timeDifferences ∧
        ∀ q ∈ pre, OrderBook.get_largest q.2.timeDifferences
          < OrderBook.get_largest b1.timeDifferences) ∧
      (OrderTable.empty.processOrders os).getLongestTimeTrades.1 ≤ s1 := by
  have hasc := (OrderTable.processOrders_table os).1
  have hstored : ∀ p ∈ (OrderTable.empty.processOrders os).table,
      p.2.get_longest_time_trades = OrderBook.get_largest p.2.timeDifferences := fun p hp =>
    (OrderTable.stored_stats os p.1 p.2 ((mem_iff_mapFind hasc p.1 p.2).mp hp)).1
  have hmem1 := mapFind_some_mem h1
  have hub := (longest_scan OrderBook.get_longest_time_trades
    (OrderTable.empty.processOrders os).table ("", 0)).2.1
  rcases longest_scan_first OrderBook.get_longest_time_trades
    (OrderTable.empty.processOrders os).table ("", 0) with
    hkeep | ⟨_, pre, p, post, hl, hres, hpre, hpost⟩
  · have hle := hub (s1, b1) hmem1
    rw [hkeep, hstored (s1, b1) hmem1] at hle
    exact absurd hpos (not_lt.mpr hle)
  · have hres2 : (OrderTable.empty.processOrders os).getLongestTimeTrades
        = (p.1, p.2.get_longest_time_trades) := hres
    have hpmem : p ∈ (OrderTable.empty.processOrders os).table := by
      rw [hl]; simp
    have hpval : p.2.get_longest_time_trades = OrderBook.get_largest b1.timeDifferences := by
      apply le_antisymm
      · rw [hstored p hpmem]
        exact hmax p.1 p.2 ((mem_iff_mapFind hasc p.1 p.2).mp hpmem)
      · have hle := hub (s1, b1) hmem1
        rw [hres, hstored (s1, b1) hmem1] at hle
        exact hle
    have hprelt : ∀ q ∈ pre, OrderBook.get_largest q.2.timeDifferences
        < OrderBook.get_largest b1.timeDifferences := by
      intro q hq
      have hqmem : q ∈ (OrderTable.empty.processOrders os).table := by
        rw [hl]; simp [hq]
      rw [← hstored q hqmem, ← hpval]
      exact hpre q hq
    refine ⟨by rw [hres2]; exact hpval, hasc, ⟨pre, p.2, post, ?_, ?_, hprelt⟩, ?_⟩
    · rw [hres2]; exact hl
    · rw [← hstored p hpmem]; exact hpval
    · rw [hres2]
      show p.1 ≤ s1
      have hsplit : (s1, b1) ∈ pre ++ p :: post := hl ▸ hmem1
      rcases List.mem_append.mp hsplit with hin | hin
      · exact absurd (hprelt (s1, b1) hin) (lt_irrefl _)
      · rcases List.mem_cons.mp hin with heq | hin2
        · rw [← heq]
        · have hpw : (pre ++ p :: post).Pairwise (fun a b => a.1 < b.1) := hl ▸ hasc
          exact le_of_lt ((List.pairwise_cons.mp (List.pairwise_append.mp hpw).2.1).1
            (s1, b1) hin2)

/-- Witness of C15: BBB, ingested first, and AAA both have the trade-interval maximum
100; the symbol returned is AAA. -/
theorem C15_tie_break_first_in_order_witness :
    (OrderTable.empty.processOrders
      [sampleOrder "BBB" .Trade 20 21 1000, sampleOrder "BBB" .Trade 20 21 1100,
       sampleOrder "AAA" .Trade 10 11 2000, sampleOrder "AAA" .Trade 10 11 2100]
      ).getLongestTimeTrades = ("AAA", 100) ∧
    (OrderTable.empty.processOrders
      [sampleOrder "BBB" .Trade 20 21 1000, sampleOrder "BBB" .Trade 20 21 1100,
       sampleOrder "AAA" .Trade 10 11 2000, sampleOrder "AAA" .Trade 10 11 2100]
      ).getLongestTimeTrades.1 ≤ "BBB" := by
  have htab : (OrderTable.empty.processOrders
      [sampleOrder "BBB" .Trade 20 21 1000, sampleOrder "BBB" .Trade 20 21 1100,
       sampleOrder "AAA" .Trade 10 11 2000, sampleOrder "AAA" .Trade 10 11 2100]).table =
      [("AAA", (OrderBook.new "AAA").addOrders
          [sampleOrder "AAA" .Trade 10 11 2000, sampleOrder "AAA" .Trade 10 11 2100]),
       ("BBB", (OrderBook.new "BBB").addOrders
          [sampleOrder "BBB" .Trade 20 21 1000, sampleOrder "BBB" .Trade 20 21 1100])] := by
    decide!
  have hB : OrderBook.get_largest ((OrderBook.new "BBB").addOrders
      [sampleOrder "BBB" .Trade 20 21 1000, sampleOrder "BBB" .Trade 20 21 1100]).timeDifferences
      = 100 := by decide!
  have hA : OrderBook.get_largest ((OrderBook.new "AAA").addOrders
      [sampleOrder "AAA" .Trade 10 11 2000, sampleOrder "AAA" .Trade 10 11 2100]).timeDifferences
      = 100 := by decide!
  have h := C15_tie_break_first_in_order
    [sampleOrder "BBB" .Trade 20 21 1000, sampleOrder "BBB" .Trade 20 21 1100,
     sampleOrder "AAA" .Trade 10 11 2000, sampleOrder "AAA" .Trade 10 11 2100]
    "BBB" ((OrderBook.new "BBB").addOrders
      [sampleOrder "BBB" .Trade 20 21 1000, sampleOrder "BBB" .Trade 20 21 1100])
    (by decide!) (by rw [hB]; norm_num) (by
      intro s2 b2 hb2
      have hmem := mapFind_some_mem hb2
      rw [htab] at hmem
      simp only [List.mem_cons, Prod.mk.injEq, List.mem_singleton, List.not_mem_nil,
        or_false] at hmem
      rcases hmem with ⟨_, hb⟩ | ⟨_, hb⟩
      · rw [hb, hA, hB]
      · rw [hb])
  exact ⟨by decide!, h.2.2.2⟩

/-! ## Mean and median -/

theorem sortDoubles_perm (l : List ℚ) : List.Perm (sortDoubles l) l :=
  List.perm_insertionSort _ l

theorem sortDoubles_sorted (l : List ℚ) : (sortDoubles l).Sorted (fun a b => a ≤ b) :=
  List.sorted_insertionSort _ l

theorem sortDoubles_length (l : List ℚ) : (sortDoubles l).length = l.length :=
  (sortDoubles_perm l).length_eq

theorem sortDoubles_eq_of_sorted_perm (l s : List ℚ) (hs : s.Sorted (fun a b => a ≤ b))
    (hp : List.Perm s l) : sortDoubles l = s :=
  List.eq_of_perm_of_sorted ((sortDoubles_perm l).trans hp.symm) (sortDoubles_sorted l) hs

theorem get_median_spread_of_eq (l : List ℚ) (hne : l ≠ []) :
    OrderBook.get_median_spread_of l = middleOf (sortDoubles l) := by
  cases l with
  | nil => exact absurd rfl hne
  | cons a t => simp [OrderBook.get_median_spread_of, middleOf]

theorem sorted_getD_le (s : List ℚ) (hs : s.Sorted (fun a b => a ≤ b)) (i j : Nat)
    (hij : i ≤ j) (hj : j < s.length) : s.getD i 0 ≤ s.getD j 0 := by
  rw [List.getD_eq_getElem s 0 (lt_of_le_of_lt hij hj), List.getD_eq_getElem s 0 hj]
  exact hs.rel_get_of_le (a := ⟨i, lt_of_le_of_lt hij hj⟩) (b := ⟨j, hj⟩) hij

theorem getD_mem_of_lt (s : List ℚ) (i : Nat) (hi : i < s.length) : s.getD i 0 ∈ s := by
  rw [List.getD_eq_getElem s 0 hi]
  exact List.getElem_mem hi

/-- The middle of a sorted non-empty vector lies between the elements at `(size - 1) / 2`
and at `size / 2`. -/
theorem middleOf_between (s : List ℚ) (hs : s.Sorted (fun a b => a ≤ b)) (hne : s ≠ []) :
    s.getD ((s.length - 1) / 2) 0 ≤ middleOf s ∧ middleOf s ≤ s.getD (s.length / 2) 0 := by
  have hpos : 0 < s.length := List.length_pos.mpr hne
  unfold middleOf
  split_ifs with hpar
  · have hidx : (s.length - 1) / 2 = s.length / 2 - 1 := by omega
    have hle := sorted_getD_le s hs (s.length / 2 - 1) (s.length / 2) (by omega) (by omega)
    rw [hidx]
    constructor <;> linarith
  · have hidx : (s.length - 1) / 2 = s.length / 2 := by omega
    rw [hidx]
    exact ⟨le_refl _, le_refl _⟩

/-- In a sorted non-empty vector at least `(size + 1) / 2` elements are not greater than
the middle and at least as many are not less. -/
theorem middleOf_counts (s : List ℚ) (hs : s.Sorted (fun a b => a ≤ b)) (hne : s ≠ []) :
    (s.length + 1) / 2 ≤ s.countP (fun d => decide (d ≤ middleOf s)) ∧
      (s.length + 1) / 2 ≤ s.countP (fun d => decide (middleOf s ≤ d)) := by
  have hpos : 0 < s.length := List.length_pos.mpr hne
  obtain ⟨hlow, hhigh⟩ := middleOf_between s hs hne
  constructor
  · have hall : ∀ a ∈ s.take ((s.length + 1) / 2), decide (a ≤ middleOf s) = true := by
      intro a ha
      obtain ⟨i, hi, rfl⟩ := List.mem_take_iff_getElem.mp ha
      have hi2 : i < s.length := lt_of_lt_of_le hi (min_le_right _ _)
      have hi3 : i < (s.length + 1) / 2 := lt_of_lt_of_le hi (min_le_left _ _)
      have := sorted_getD_le s hs i ((s.length - 1) / 2) (by omega) (by omega)
      rw [List.getD_eq_getElem s 0 hi2] at this
      exact decide_eq_true (le_trans this hlow)
    have hcount := List.countP_eq_length.mpr hall
    have hsplit : s.countP (fun d => decide (d ≤ middleOf s))
        = (s.take ((s.length + 1) / 2)).countP (fun d => decide (d ≤ middleOf s))
          + (s.drop ((s.length + 1) / 2)).countP (fun d => decide (d ≤ middleOf s)) := by
      rw [← List.countP_append, List.take_append_drop]
    rw [hsplit, hcount, List.length_take]
    have : min ((s.length + 1) / 2) s.length = (s.length + 1) / 2 := by omega
    omega
  · have hall : ∀ a ∈ s.drop (s.length / 2), decide (middleOf s ≤ a) = true := by
      intro a ha
      obtain ⟨i, hi, rfl⟩ := List.mem_drop_iff_getElem.mp ha
      have := sorted_getD_le s hs (s.length / 2) (s.length / 2 + i) (by omega) (by omega)
      rw [List.getD_eq_getElem s 0 (by omega : s.length / 2 + i < s.length)] at this
      exact decide_eq_true (le_trans hhigh this)
    have hcount := List.countP_eq_length.mpr hall
    have hsplit : s.countP (fun d => decide (middleOf s ≤ d))
        = (s.take (s.length / 2)).countP (fun d => decide (middleOf s ≤ d))
          + (s.drop (s.length / 2)).countP (fun d => decide (middleOf s ≤ d)) := by
      rw [← List.countP_append, List.take_append_drop]
    rw [hsplit, hcount, List.length_drop]
    omega

/-- The middle of a sorted non-empty vector lies between any lower and upper bound of
its elements. -/
theorem middleOf_bounds (s : List ℚ) (hs : s.Sorted (fun a b => a ≤ b)) (hne : s ≠ [])
    (lo hi : ℚ) (hlo : ∀ d ∈ s, lo ≤ d) (hhi : ∀ d ∈ s, d ≤ hi) :
    lo ≤ middleOf s ∧ middleOf s ≤ hi := by
  have hpos : 0 < s.length := List.length_pos.mpr hne
  obtain ⟨hlow, hhigh⟩ := middleOf_between s hs hne
  exact ⟨le_trans (hlo _ (getD_mem_of_lt s _ (by omega))) hlow,
    le_trans hhigh (hhi _ (getD_mem_of_lt s _ (by omega)))⟩

theorem foldl_add_eq (l : List ℚ) (a : ℚ) :
    l.foldl (fun acc s => acc + s) a = a + l.sum := by
  induction l generalizing a with
  | nil => simp
  | cons x t ih => simp [ih, add_assoc]

theorem sum_bounds (l : List ℚ) (lo hi : ℚ) (hlo : ∀ d ∈ l, lo ≤ d) (hhi : ∀ d ∈ l, d ≤ hi) :
    (l.length : ℚ) * lo ≤ l.sum ∧ l.sum ≤ (l.length : ℚ) * hi := by
  induction l with
  | nil => simp
  | cons x t ih =>
    obtain ⟨h1, h2⟩ := ih (fun d hd => hlo d (List.mem_cons_of_mem _ hd))
      (fun d hd => hhi d (List.mem_cons_of_mem _ hd))
    have hx1 := hlo x (List.mem_cons_self _ _)
    have hx2 := hhi x (List.mem_cons_self _ _)
    simp only [List.length_cons, List.sum_cons, Nat.cast_add, Nat.cast_one]
    constructor <;> linarith

theorem get_mean_spread_of_bounds (l : List ℚ) (hne : l ≠ []) (lo hi : ℚ)
    (hlo : ∀ d ∈ l, lo ≤ d) (hhi : ∀ d ∈ l, d ≤ hi) :
    lo ≤ OrderBook.get_mean_spread_of l ∧ OrderBook.get_mean_spread_of l ≤ hi := by
  have hpos : (0 : ℚ) < (l.length : ℚ) := by exact_mod_cast List.length_pos.mpr hne
  obtain ⟨h1, h2⟩ := sum_bounds l lo hi hlo hhi
  have hval : OrderBook.get_mean_spread_of l = l.sum / (l.length : ℚ) := by
    cases l with
    | nil => exact absurd rfl hne
    | cons a t => simp [OrderBook.get_mean_spread_of, foldl_add_eq]
  rw [hval]
  constructor
  · rw [le_div_iff₀ hpos]; linarith
  · rw [div_le_iff₀ hpos]; linarith

theorem get_median_spread_of_bounds (l : List ℚ) (hne : l ≠ []) (lo hi : ℚ)
    (hlo : ∀ d ∈ l, lo ≤ d) (hhi : ∀ d ∈ l, d ≤ hi) :
    lo ≤ OrderBook.get_median_spread_of l ∧ OrderBook.get_median_spread_of l ≤ hi := by
  rw [get_median_spread_of_eq l hne]
  have hne2 : sortDoubles l ≠ [] := by
    intro h
    have := sortDoubles_length l
    rw [h] at this
    exact hne (List.length_eq_zero.mp this.symm)
  exact middleOf_bounds _ (sortDoubles_sorted l) hne2 lo hi
    (fun d hd => hlo d ((sortDoubles_perm l).mem_iff.mp hd))
    (fun d hd => hhi d ((sortDoubles_perm l).mem_iff.mp hd))

/-- A non-empty vector has a least and a greatest element. -/
theorem exists_min_max (l : List ℚ) (hne : l ≠ []) :
    ∃ mn ∈ l, ∃ mx ∈ l, ∀ d ∈ l, mn ≤ d ∧ d ≤ mx := by
  have hlen := sortDoubles_length l
  have hpos : 0 < l.length := List.length_pos.mpr hne
  have hs := sortDoubles_sorted l
  refine ⟨(sortDoubles l).getD 0 0,
    (sortDoubles_perm l).mem_iff.mp (getD_mem_of_lt _ _ (by omega)),
    (sortDoubles l).getD (l.length - 1) 0,
    (sortDoubles_perm l).mem_iff.mp (getD_mem_of_lt _ _ (by omega)), ?_⟩
  intro d hd
  obtain ⟨i, hi, rfl⟩ := List.getElem_of_mem ((sortDoubles_perm l).mem_iff.mpr hd)
  have h1 := sorted_getD_le _ hs 0 i (by omega) hi
  have h2 := sorted_getD_le _ hs i (l.length - 1) (by omega) (by omega)
  rw [List.getD_eq_getElem _ 0 hi] at h1 h2
  exact ⟨h1, h2⟩

theorem median_of_sorted (l s : List ℚ) (hne : l ≠ []) (hs : s.Sorted (fun a b => a ≤ b))
    (hp : List.Perm s l) :
    (l.length % 2 = 1 →
      ∃ x, s[l.length / 2]? = some x ∧ OrderBook.get_median_spread_of l = x) ∧
    (l.length % 2 = 0 →
      ∃ x y, s[l.length / 2 - 1]? = some x ∧ s[l.length / 2]? = some y ∧
        OrderBook.get_median_spread_of l = (x + y) / 2) := by
  have hpos : 0 < l.length := List.length_pos.mpr hne
  have hlen : s.length = l.length := hp.length_eq
  rw [get_median_spread_of_eq l hne, sortDoubles_eq_of_sorted_perm l s hs hp]
  unfold middleOf
  rw [hlen]
  constructor
  · intro hodd
    have hk : l.length / 2 < s.length := by omega
    refine ⟨s[l.length / 2], List.getElem?_eq_getElem hk, ?_⟩
    rw [if_neg (by omega), List.getD_eq_getElem s 0 hk]
  · intro heven
    have hk : l.length / 2 < s.length := by omega
    have hk1 : l.length / 2 - 1 < s.length := by omega
    refine ⟨s[l.length / 2 - 1], s[l.length / 2], List.getElem?_eq_getElem hk1,
      List.getElem?_eq_getElem hk, ?_⟩
    rw [if_pos heven, List.getD_eq_getElem s 0 hk, List.getD_eq_getElem s 0 hk1]

theorem get_median_spread_of_perm (l1 l2 : List ℚ) (hp : List.Perm l1 l2) :
    OrderBook.get_median_spread_of l1 = OrderBook.get_median_spread_of l2 := by
  by_cases hne : l2 = []
  · rw [hne] at hp
    rw [hne, List.Perm.eq_nil hp]
  · have hne1 : l1 ≠ [] := fun h => hne (List.Perm.nil_eq (h ▸ hp)).symm
    rw [get_median_spread_of_eq l1 hne1, get_median_spread_of_eq l2 hne,
      sortDoubles_eq_of_sorted_perm l1 (sortDoubles l2) (sortDoubles_sorted l2)
        ((sortDoubles_perm l2).trans hp.symm)]

theorem get_median_spread_of_counts (l : List ℚ) (hne : l ≠ []) :
    (l.length + 1) / 2
        ≤ l.countP (fun d => decide (d ≤ OrderBook.get_median_spread_of l)) ∧
      (l.length + 1) / 2
        ≤ l.countP (fun d => decide (OrderBook.get_median_spread_of l ≤ d)) := by
  have hne2 : sortDoubles l ≠ [] := by
    intro h
    have := sortDoubles_length l
    rw [h] at this
    exact hne (List.length_eq_zero.mp this.symm)
  have h := middleOf_counts (sortDoubles l) (sortDoubles_sorted l) hne2
  rw [sortDoubles_length, (sortDoubles_perm l).countP_eq, (sortDoubles_perm l).countP_eq,
    ← get_median_spread_of_eq l hne] at h
  exact h

/-! ### The overloads on seconds, through the cast to the rationals -/

theorem sortDoubles_map_cast (l : List seconds) :
    sortDoubles (l.map (fun d : Int => (d : ℚ))) = (sortSeconds l).map (fun d : Int => (d : ℚ)) := by
  apply sortDoubles_eq_of_sorted_perm
  · have hs : (sortSeconds l).Sorted (fun a b => a ≤ b) := List.sorted_insertionSort _ l
    exact List.Pairwise.map _ (fun a b hab => by exact_mod_cast hab) hs
  · exact List.Perm.map _ (List.perm_insertionSort _ l)

theorem cast_getD (s : List Int) (i : Nat) :
    ((s.getD i 0 : Int) : ℚ) = (s.map (fun d : Int => (d : ℚ))).getD i 0 := by
  have h := List.getD_map (l := s) (d := 0) (n := i) (fun d : Int => (d : ℚ))
  simpa using h.symm

theorem get_median_eq_cast (l : List seconds) :
    OrderBook.get_median l = OrderBook.get_median_spread_of (l.map (fun d : Int => (d : ℚ))) := by
  cases l with
  | nil => simp [OrderBook.get_median, OrderBook.get_median_spread_of]
  | cons a t =>
    have hsort := sortDoubles_map_cast (a :: t)
    simp only [OrderBook.get_median, OrderBook.get_median_spread_of, List.isEmpty_cons,
      Bool.false_eq_true, if_false, List.map_cons] at hsort ⊢
    rw [hsort, List.length_map]
    split_ifs
    · rw [← cast_getD, ← cast_getD]; push_cast; ring
    · rw [← cast_getD]

theorem foldl_add_cast (l : List seconds) (a : Int) :
    ((l.foldl (fun acc d => acc + d) a : Int) : ℚ)
      = (l.map (fun d : Int => (d : ℚ))).foldl (fun acc s => acc + s) (a : ℚ) := by
  induction l generalizing a with
  | nil => simp
  | cons x t ih => simp only [List.foldl_cons, List.map_cons, ih]; push_cast; rfl

theorem get_mean_eq_cast (l : List seconds) :
    OrderBook.get_mean l = OrderBook.get_mean_spread_of (l.map (fun d : Int => (d : ℚ))) := by
  cases l with
  | nil => simp [OrderBook.get_mean, OrderBook.get_mean_spread_of]
  | cons a t =>
    simp only [OrderBook.get_mean, OrderBook.get_mean_spread_of, List.isEmpty_cons,
      Bool.false_eq_true, if_false, List.map_cons, List.length_map]
    have h := foldl_add_cast (a :: t) 0
    simp only [List.map_cons, Int.cast_zero] at h
    rw [h]
    simp

/-- C16: for every non-empty sequence of integer second durations, `get_mean` and
`get_median`, taken as exact rationals, both lie between the minimum and the maximum
element of the sequence, inclusive; the same holds for the spread overloads of
`get_mean` and `get_median` over exact rationals. -/
theorem C16_mean_median_between_min_max :
    (∀ l : List seconds, l ≠ [] →
      ∃ mn ∈ l, ∃ mx ∈ l, (∀ d ∈ l, mn ≤ d ∧ d ≤ mx) ∧
        (mn : ℚ) ≤ OrderBook.get_mean l ∧ OrderBook.get_mean l ≤ (mx : ℚ) ∧
        (mn : ℚ) ≤ OrderBook.get_median l ∧ OrderBook.get_median l ≤ (mx : ℚ)) ∧
    (∀ l : List ℚ, l ≠ [] →
      ∃ mn ∈ l, ∃ mx ∈ l, (∀ d ∈ l, mn ≤ d ∧ d ≤ mx) ∧
        mn ≤ OrderBook.get_mean_spread_of l ∧ OrderBook.get_mean_spread_of l ≤ mx ∧
        mn ≤ OrderBook.get_median_spread_of l ∧ OrderBook.get_median_spread_of l ≤ mx) := by
  have hrat : ∀ l : List ℚ, l ≠ [] →
      ∃ mn ∈ l, ∃ mx ∈ l, (∀ d ∈ l, mn ≤ d ∧ d ≤ mx) ∧
        mn ≤ OrderBook.get_mean_spread_of l ∧ OrderBook.get_mean_spread_of l ≤ mx ∧
        mn ≤ OrderBook.get_median_spread_of l ∧ OrderBook.get_median_spread_of l ≤ mx := by
    intro l hne
    obtain ⟨mn, hmn, mx, hmx, hall⟩ := exists_min_max l hne
    obtain ⟨a1, a2⟩ := get_mean_spread_of_bounds l hne mn mx (fun d hd => (hall d hd).1)
      (fun d hd => (hall d hd).2)
    obtain ⟨b1, b2⟩ := get_median_spread_of_bounds l hne mn mx (fun d hd => (hall d hd).1)
      (fun d hd => (hall d hd).2)
    exact ⟨mn, hmn, mx, hmx, hall, a1, a2, b1, b2⟩
  refine ⟨?_, hrat⟩
  intro l hne
  have hne2 : l.map (fun d : Int => (d : ℚ)) ≠ [] := by simpa using hne
  obtain ⟨mn, hmn, mx, hmx, hall, a1, a2, b1, b2⟩ := hrat _ hne2
  obtain ⟨imn, himn, rfl⟩ := List.mem_map.mp hmn
  obtain ⟨imx, himx, rfl⟩ := List.mem_map.mp hmx
  rw [← get_mean_eq_cast] at a1 a2
  rw [← get_median_eq_cast] at b1 b2
  refine ⟨imn, himn, imx, himx, ?_, a1, a2, b1, b2⟩
  intro d hd
  have := hall (d : ℚ) (List.mem_map.mpr ⟨d, hd, rfl⟩)
  exact ⟨by exact_mod_cast this.1, by exact_mod_cast this.2⟩

/-- Witness of C16: the durations 10, 15, 40 and the spreads 1/2, 3/2. -/
theorem C16_mean_median_between_min_max_witness :
    (∃ mn ∈ ([10, 40, 15] : List seconds), ∃ mx ∈ ([10, 40, 15] : List seconds),
      (∀ d ∈ ([10, 40, 15] : List seconds), mn ≤ d ∧ d ≤ mx) ∧
        (mn : ℚ) ≤ OrderBook.get_mean [10, 40, 15] ∧
        OrderBook.get_mean [10, 40, 15] ≤ (mx : ℚ) ∧
        (mn : ℚ) ≤ OrderBook.get_median [10, 40, 15] ∧
        OrderBook.get_median [10, 40, 15] ≤ (mx : ℚ)) ∧
    OrderBook.get_mean [10, 40, 15] = 65 / 3 ∧ OrderBook.get_median [10, 40, 15] = 15 ∧
    OrderBook.get_mean_spread_of [3 / 2, 1 / 2] = 1 ∧
    OrderBook.get_median_spread_of [3 / 2, 1 / 2] = 1 :=
  ⟨C16_mean_median_between_min_max.1 [10, 40, 15] (by decide), by decide!, by decide!,
    by decide!, by decide!⟩

/-- C17: `get_median` is the order-statistic median, in both overloads. It returns 0 for
the empty sequence; for every non-empty sequence of length `n` at least `ceil(n / 2)`
elements are not greater than the result and at least `ceil(n / 2)` are not less; the
result is the middle element of the sorted sequence when `n` is odd and the average of
the two middle elements when `n` is even; and it does not depend on the order of the
input elements. -/
theorem C17_median_order_statistic :
    (OrderBook.get_median [] = 0 ∧ OrderBook.get_median_spread_of [] = 0) ∧
    (∀ l : List seconds, l ≠ [] →
      (l.length + 1) / 2 ≤ l.countP (fun d : Int => decide ((d : ℚ) ≤ OrderBook.get_median l)) ∧
      (l.length + 1) / 2 ≤ l.countP (fun d : Int => decide (OrderBook.get_median l ≤ (d : ℚ))) ∧
      ∀ s : List seconds, s.Sorted (fun a b => a ≤ b) → List.Perm s l →
        (l.length % 2 = 1 →
          ∃ x, s[l.length / 2]? = some x ∧ OrderBook.get_median l = (x : ℚ)) ∧
        (l.length % 2 = 0 →
          ∃ x y, s[l.length / 2 - 1]? = some x ∧ s[l.length / 2]? = some y ∧
            OrderBook.get_median l = ((x : ℚ) + (y : ℚ)) / 2)) ∧
    (∀ l1 l2 : List seconds, List.Perm l1 l2 →
      OrderBook.get_median l1 = OrderBook.get_median l2) ∧
    (∀ l : List ℚ, l ≠ [] →
      (l.length + 1) / 2 ≤ l.countP (fun d => decide (d ≤ OrderBook.get_median_spread_of l)) ∧
      (l.length + 1) / 2 ≤ l.countP (fun d => decide (OrderBook.get_median_spread_of l ≤ d)) ∧
      ∀ s : List ℚ, s.Sorted (fun a b => a ≤ b) → List.Perm s l →
        (l.length % 2 = 1 →
          ∃ x, s[l.length / 2]? = some x ∧ OrderBook.get_median_spread_of l = x) ∧
        (l.length % 2 = 0 →
          ∃ x y, s[l.length / 2 - 1]? = some x ∧ s[l.length / 2]? = some y ∧
            OrderBook.get_median_spread_of l = (x + y) / 2)) ∧
    (∀ l1 l2 : List ℚ, List.Perm l1 l2 →
      OrderBook.get_median_spread_of l1 = OrderBook.get_median_spread_of l2) := by
  refine ⟨⟨by simp [OrderBook.get_median], by simp [OrderBook.get_median_spread_of]⟩,
    ?_, ?_, ?_, get_median_spread_of_perm⟩
  · intro l hne
    have hne2 : l.map (fun d : Int => (d : ℚ)) ≠ [] := by simpa using hne
    obtain ⟨c1, c2⟩ := get_median_spread_of_counts _ hne2
    rw [← get_median_eq_cast, List.length_map, List.countP_map] at c1 c2
    refine ⟨c1, c2, ?_⟩
    intro s hs hp
    have hs2 : (s.map (fun d : Int => (d : ℚ))).Sorted (fun a b => a ≤ b) :=
      List.Pairwise.map _ (fun a b hab => by exact_mod_cast hab) hs
    obtain ⟨hodd, heven⟩ := median_of_sorted _ _ hne2 hs2 (List.Perm.map _ hp)
    rw [← get_median_eq_cast, List.length_map] at hodd heven
    constructor
    · intro h
      obtain ⟨x, hx, hm⟩ := hodd h
      rw [List.getElem?_map] at hx
      obtain ⟨ix, hix, rfl⟩ := Option.map_eq_some'.mp hx
      exact ⟨ix, hix, hm⟩
    · intro h
      obtain ⟨x, y, hx, hy, hm⟩ := heven h
      rw [List.getElem?_map] at hx hy
      obtain ⟨ix, hix, rfl⟩ := Option.map_eq_some'.mp hx
      obtain ⟨iy, hiy, rfl⟩ := Option.map_eq_some'.mp hy
      exact ⟨ix, iy, hix, hiy, hm⟩
  · intro l1 l2 hp
    rw [get_median_eq_cast, get_median_eq_cast]
    exact get_median_spread_of_perm _ _ (List.Perm.map _ hp)
  · intro l hne
    obtain ⟨c1, c2⟩ := get_median_spread_of_counts l hne
    exact ⟨c1, c2, fun s hs hp => median_of_sorted l s hne hs hp⟩

/-- Witness of C17: the durations 40, 10, 15, 20 have median 35/2, with two elements on
either side, and so has their rearrangement 10, 15, 20, 40. -/
theorem C17_median_order_statistic_witness :
    2 ≤ ([40, 10, 15, 20] : List seconds).countP
        (fun d : Int => decide ((d : ℚ) ≤ OrderBook.get_median [40, 10, 15, 20])) ∧
    OrderBook.get_median [40, 10, 15, 20] = OrderBook.get_median [10, 15, 20, 40] ∧
    OrderBook.get_median [40, 10, 15, 20] = 35 / 2 :=
  ⟨(C17_median_order_statistic.2.1 [40, 10, 15, 20] (by decide)).1,
    C17_median_order_statistic.2.2.1 [40, 10, 15, 20] [10, 15, 20, 40] (by decide),
    by decide!⟩

/-! ## The acceptance filter -/

theorem stringFind_isSome_iff (str substr : List Char) :
    (stringFind str substr).isSome = true ↔ substr <:+: str := by
  induction str with
  | nil =>
    simp only [stringFind, List.infix_nil]
    cases substr <;> simp [List.isPrefixOf]
  | cons c rest ih =>
    simp only [stringFind, List.infix_cons_iff]
    by_cases hp : substr.isPrefixOf (c :: rest) = true
    · simp [hp, List.isPrefixOf_iff_prefix.mp hp]
    · have hnp : ¬ substr <+: c :: rest := fun h => hp (List.isPrefixOf_iff_prefix.mpr h)
      simp only [hp, if_false, Option.isSome_map', ih, hnp, false_or, Bool.false_eq_true]

/-- C20: the acceptance filter. For every condition-code string `c`, `valid_order(c)` is
true if and only if `c` contains the substring "XT" or `c` equals "@1". In `parse_line`
a record whose code is not valid leaves the parser and its table as they are; a record
whose code is valid goes to `process_order_details` with the empty string as code when
`c` equals "@1" and with `c` unchanged otherwise, and that code is the condition code
of the order handed to `processOrder`. -/
theorem C20_acceptance_filter :
    (∀ c : String, DataParser.valid_order c = true ↔
      ("XT".toList <:+: c.toList ∨ c = "@1")) ∧
    (∀ (p : DataParser) (f : LineFields) (type : UpdateType),
      DataParser.valid_order f.condition_codes = false →
        DataParser.parse_line p f type = some p) ∧
    (∀ (p : DataParser) (f : LineFields) (type : UpdateType),
      DataParser.valid_order f.condition_codes = true →
        DataParser.parse_line p f type =
          DataParser.process_order_details p f.symbol f.bid_price f.ask_price f.trade_price
            f.bid_volume f.ask_volume f.trade_volume f.update_type f.date f.seconds
            (if f.condition_codes = "@1" then "" else f.condition_codes) type) ∧
    (∀ (p q : DataParser) (f : LineFields) (type : UpdateType),
      DataParser.parse_line p f type = some q → q ≠ p →
        DataParser.valid_order f.condition_codes = true ∧
        ∃ order : Order,
          order.condition_code = (if f.condition_codes = "@1" then "" else f.condition_codes) ∧
          order.getSymbol = f.symbol ∧
          q.orders_table = p.orders_table.processOrder order) := by
  refine ⟨?_, ?_, ?_, ?_⟩
  · intro c
    simp only [DataParser.valid_order, DataParser.containsSubstring, Bool.or_eq_true,
      stringFind_isSome_iff, beq_iff_eq]
  · intro p f type h
    simp [DataParser.parse_line, h]
  · intro p f type h
    simp [DataParser.parse_line, h]
  · intro p q f type hq hne
    by_cases hv : DataParser.valid_order f.condition_codes = true
    · refine ⟨hv, ?_⟩
      simp only [DataParser.parse_line, hv, if_true, DataParser.process_order_details,
        beq_iff_eq] at hq
      cases hd : DataParser.parse_date f.date with
      | none => simp [hd] at hq
      | some date_details =>
        simp only [hd] at hq
        rw [← Option.some.inj hq]
        exact ⟨{ symbol := f.symbol, bid_price := f.bid_price, ask_price := f.ask_price,
                 trade_price := f.trade_price, bid_volume := f.bid_volume,
                 ask_volume := f.ask_volume, trade_volume := f.trade_volume,
                 condition_code := if f.condition_codes = "@1" then "" else f.condition_codes,
                 type := DataParser.process_type f.update_type type, date := f.date,
                 time := DataParser.createTimePoint (date_details.getD 0 0)
                   (date_details.getD 1 0) (date_details.getD 2 0) f.seconds },
               rfl, rfl, rfl⟩
    · simp only [DataParser.parse_line, hv, if_false] at hq
      exact absurd (Option.some.inj hq).symm hne

/-- Witness of C20: the code "@1" is accepted and the order reaches the table with the
empty condition code; the code "ZT" is rejected and the table stays empty; a code
containing "XT" is accepted. -/
theorem C20_acceptance_filter_witness :
    DataParser.valid_order "@1" = true ∧
    DataParser.valid_order "ZT" = false ∧
    DataParser.valid_order "AXTB" = true ∧
    (DataParser.parse_line sampleParser (sampleFields "ZT") .Trade).map
        (fun q => q.orders_table.table.length) = some 0 ∧
    (DataParser.parse_line sampleParser (sampleFields "@1") .Trade).map
        (fun q => q.orders_table.table.map (fun e => e.2.orders.map (fun o => o.condition_code)))
      = some [[""]] := by
  refine ⟨(C20_acceptance_filter.1 "@1").mpr (Or.inr rfl), by decide!,
    (C20_acceptance_filter.1 "AXTB").mpr (Or.inl ⟨['A'], ['B'], by decide⟩), ?_, by decide!⟩
  rw [C20_acceptance_filter.2.1 sampleParser (sampleFields "ZT") .Trade (by decide!)]
  rfl

/-! ## Decoding of the update type, the tick scan, frames, and time points -/

/-- C21, as stated, fails: with `update_type` 7 the decoder rejects nothing. Whatever the
value left in the uninitialized local of `process_type`, an enumerator or not,
`process_order_details` builds an order and passes it to `processOrder`, after which
the table holds the symbol and counts one order. With a value that is no enumerator
the ledger has its one order and one spread and no trade, bid or ask bookkeeping. -/
theorem C21_counterexample_unknown_type_is_processed :
    (DataParser.process_order_details sampleParser "ABC" 10 11 0 1 1 0 7 "20150420" 100
        "XT" .Trade).map (fun q => q.orders_table.is_symbol_exists "ABC") = some true ∧
    (DataParser.process_order_details sampleParser "ABC" 10 11 0 1 1 0 7 "20150420" 100
        "XT" .Trade).map (fun q => q.orders_table.getTotalOrders) = some 1 ∧
    (DataParser.process_order_details sampleParser "ABC" 10 11 0 1 1 0 7 "20150420" 100
        "XT" .ChangeToBid).map (fun q => q.orders_table.is_symbol_exists "ABC") = some true ∧
    (DataParser.process_order_details sampleParser "ABC" 10 11 0 1 1 0 7 "20150420" 100
        "XT" .ChangeToBid).map (fun q => q.orders_table.getTotalOrders) = some 1 ∧
    (DataParser.process_order_details sampleParser "ABC" 10 11 0 1 1 0 7 "20150420" 100
        "XT" .ChangeToAsk).map (fun q => q.orders_table.is_symbol_exists "ABC") = some true ∧
    (DataParser.process_order_details sampleParser "ABC" 10 11 0 1 1 0 7 "20150420" 100
        "XT" .ChangeToAsk).map (fun q => q.orders_table.getTotalOrders) = some 1 ∧
    (DataParser.process_order_details sampleParser "ABC" 10 11 0 1 1 0 7 "20150420" 100
        "XT" .Other).map (fun q => q.orders_table.is_symbol_exists "ABC") = some true ∧
    (DataParser.process_order_details sampleParser "ABC" 10 11 0 1 1 0 7 "20150420" 100
        "XT" .Other).map (fun q => q.orders_table.getTotalOrders) = some 1 ∧
    (DataParser.process_order_details sampleParser "ABC" 10 11 0 1 1 0 7 "20150420" 100
        "XT" .Other).map (fun q => (mapFind q.orders_table.table "ABC").map
          (fun b => (b.previousTradeTime, b.bidPrices.length, b.askPrices.length,
            b.spreadList))) = some (some (0, 0, 0, [1])) := by
  decide!

/-- C21, amended: `process_type` maps 1 to Trade, 2 to ChangeToBid and 3 to ChangeToAsk;
for an `update_type` outside 1, 2, 3 the decoder does not reject the record:
`process_order_details` fails only when `parse_date` throws, and otherwise passes to
`processOrder` an order with the symbol, prices, volumes, condition code, date and
time point built from its arguments. The update type of that order is not stated. -/
theorem C21_update_type_decoding :
    (∀ type : UpdateType,
      DataParser.process_type 1 type = UpdateType.Trade ∧
      DataParser.process_type 2 type = UpdateType.ChangeToBid ∧
      DataParser.process_type 3 type = UpdateType.ChangeToAsk) ∧
    (∀ (p : DataParser) (symbol : String) (bid_p ask_p trade_p : ℚ)
        (bid_v ask_v trade_v : Nat) (update_type : Int) (date : String) (seconds : ℚ)
        (condition : String) (type : UpdateType),
      update_type ≠ 1 → update_type ≠ 2 → update_type ≠ 3 →
        (DataParser.parse_date date = none →
          DataParser.process_order_details p symbol bid_p ask_p trade_p bid_v ask_v trade_v
            update_type date seconds condition type = none) ∧
        (∀ date_details, DataParser.parse_date date = some date_details →
          ∃ (q : DataParser) (order : Order),
            DataParser.process_order_details p symbol bid_p ask_p trade_p bid_v ask_v trade_v
              update_type date seconds condition type = some q ∧
            q.orders_table = p.orders_table.processOrder order ∧
            order.symbol = symbol ∧ order.bid_price = bid_p ∧ order.ask_price = ask_p ∧
            order.trade_price = trade_p ∧ order.bid_volume = bid_v ∧
            order.ask_volume = ask_v ∧ order.trade_volume = trade_v ∧
            order.condition_code = condition ∧ order.date = date ∧
            order.time = DataParser.createTimePoint (date_details.getD 0 0)
              (date_details.getD 1 0) (date_details.getD 2 0) seconds)) := by
  refine ⟨fun type => ⟨rfl, rfl, rfl⟩, ?_⟩
  intro p symbol bid_p ask_p trade_p bid_v ask_v trade_v update_type date seconds condition
    type _ _ _
  refine ⟨fun hnone => ?_, fun date_details hsome => ?_⟩
  · simp [DataParser.process_order_details, hnone]
  · simp only [DataParser.process_order_details, hsome]
    exact ⟨_, _, rfl, rfl, rfl, rfl, rfl, rfl, rfl, rfl, rfl, rfl, rfl, rfl⟩

/-- Witness of C21 (amended): `update_type` 7 on the date 20150420, the uninitialized
local holding no enumerator; an order of symbol ABC reaches the empty table. -/
theorem C21_update_type_decoding_witness :
    ∃ (q : DataParser) (order : Order),
      DataParser.process_order_details sampleParser "ABC" 10 11 0 1 1 0 7 "20150420" 100
          "XT" .Other = some q ∧
        q.orders_table = sampleParser.orders_table.processOrder order ∧
        order.symbol = "ABC" ∧ order.condition_code = "XT" := by
  obtain ⟨q, order, hq, htab, hsym, _, _, _, _, _, _, hcc, _⟩ :=
    (C21_update_type_decoding.2 sampleParser "ABC" 10 11 0 1 1 0 7
      "20150420" 100 "XT" .Other (by decide) (by decide) (by decide)).2 [2015, 4, 20]
      (by decide!)
  exact ⟨q, order, hq, htab, hsym, hcc⟩

/-- C22: for every table state, the value returned by `getLongestTimeTick` is greater
than or equal to the stored longest tick time of every ledger in the table, and the
pair returned is either the empty symbol with 0 or a symbol of the table with its
stored longest tick time; on every table reached by `processOrder` from the empty
table the same holds with the maximum of the tick-interval series of each ledger. -/
theorem C22_longest_tick_gap :
    (∀ t : OrderTable,
      (∀ p ∈ t.table, p.2.get_longest_time_tick ≤ t.getLongestTimeTick.2) ∧
      (t.getLongestTimeTick = ("", 0) ∨
        ∃ b, (t.getLongestTimeTick.1, b) ∈ t.table ∧
          b.get_longest_time_tick = t.getLongestTimeTick.2)) ∧
    (∀ os : List Order,
      (∀ s b, mapFind (OrderTable.empty.processOrders os).table s = some b →
        OrderBook.get_largest b.timeTickDifferences
          ≤ (OrderTable.empty.processOrders os).getLongestTimeTick.2) ∧
      ((OrderTable.empty.processOrders os).getLongestTimeTick = ("", 0) ∨
        ∃ b, mapFind (OrderTable.empty.processOrders os).table
            (OrderTable.empty.processOrders os).getLongestTimeTick.1 = some b ∧
          OrderBook.get_largest b.timeTickDifferences
            = (OrderTable.empty.processOrders os).getLongestTimeTick.2)) := by
  have hgen : ∀ t : OrderTable,
      (∀ p ∈ t.table, p.2.get_longest_time_tick ≤ t.getLongestTimeTick.2) ∧
      (t.getLongestTimeTick = ("", 0) ∨
        ∃ b, (t.getLongestTimeTick.1, b) ∈ t.table ∧
          b.get_longest_time_tick = t.getLongestTimeTick.2) := by
    intro t
    refine ⟨(longest_scan OrderBook.get_longest_time_tick t.table ("", 0)).2.1, ?_⟩
    rcases longest_scan_first OrderBook.get_longest_time_tick t.table ("", 0) with
      hkeep | ⟨_, pre, p, post, hl, hres, _, _⟩
    · left; exact hkeep
    · right
      have hres2 : t.getLongestTimeTick = (p.1, p.2.get_longest_time_tick) := hres
      rw [hres2]
      exact ⟨p.2, by rw [hl]; simp, rfl⟩
  refine ⟨hgen, fun os => ?_⟩
  obtain ⟨hasc, _⟩ := OrderTable.processOrders_table os
  obtain ⟨hub, hsym⟩ := hgen (OrderTable.empty.processOrders os)
  constructor
  · intro s b hb
    rw [← (OrderTable.stored_stats os s b hb).2]
    exact hub (s, b) (mapFind_some_mem hb)
  · rcases hsym with h | ⟨b, hmem, hval⟩
    · left; exact h
    · right
      have hfind := (mem_iff_mapFind hasc _ b).mp hmem
      exact ⟨b, hfind, by rw [← (OrderTable.stored_stats os _ b hfind).2]; exact hval⟩

/-- C23: event kinds touch only their own bookkeeping. For every ledger state, ingesting
a Trade record leaves the tick-interval series and both the bid and the ask stack
unchanged; ingesting a ChangeToBid record leaves the trade-interval series, the last
trade time and the ask stack unchanged; ingesting a ChangeToAsk record leaves the
trade-interval series, the last trade time and the bid stack unchanged. -/
theorem C23_kinds_touch_own_bookkeeping (b : OrderBook) (o : Order) :
    (o.getType = UpdateType.Trade →
      (b.addOrder o).timeTickDifferences = b.timeTickDifferences ∧
      (b.addOrder o).bidPrices = b.bidPrices ∧
      (b.addOrder o).askPrices = b.askPrices) ∧
    (o.getType = UpdateType.ChangeToBid →
      (b.addOrder o).timeDifferences = b.timeDifferences ∧
      (b.addOrder o).previousTradeTime = b.previousTradeTime ∧
      (b.addOrder o).askPrices = b.askPrices) ∧
    (o.getType = UpdateType.ChangeToAsk →
      (b.addOrder o).timeDifferences = b.timeDifferences ∧
      (b.addOrder o).previousTradeTime = b.previousTradeTime ∧
      (b.addOrder o).bidPrices = b.bidPrices) := by
  simp only [Order.getType]
  rw [OrderBook.addOrder_timeDifferences, OrderBook.addOrder_timeTickDifferences,
    OrderBook.addOrder_previousTradeTime, OrderBook.addOrder_bidPrices,
    OrderBook.addOrder_askPrices]
  refine ⟨fun h => ?_, fun h => ?_, fun h => ?_⟩ <;> simp [h]

/-- Witness of C23: a trade, a bid change and an ask change on a ledger that has
ingested one record of each kind. -/
theorem C23_kinds_touch_own_bookkeeping_witness :
    (((OrderBook.new "ABC").addOrders
        [sampleOrder "ABC" .Trade 10 11 100, sampleOrder "ABC" .ChangeToBid 10 11 105,
         sampleOrder "ABC" .ChangeToAsk 10 12 110]).addOrder
        (sampleOrder "ABC" .Trade 10 12 120)).bidPrices =
      [(10, sampleOrder "ABC" .ChangeToBid 10 11 105)] ∧
    (((OrderBook.new "ABC").addOrders
        [sampleOrder "ABC" .Trade 10 11 100, sampleOrder "ABC" .ChangeToBid 10 11 105,
         sampleOrder "ABC" .ChangeToAsk 10 12 110]).addOrder
        (sampleOrder "ABC" .ChangeToBid 9 12 120)).previousTradeTime = 100 ∧
    (((OrderBook.new "ABC").addOrders
        [sampleOrder "ABC" .Trade 10 11 100, sampleOrder "ABC" .ChangeToBid 10 11 105,
         sampleOrder "ABC" .ChangeToAsk 10 12 110]).addOrder
        (sampleOrder "ABC" .ChangeToAsk 9 13 120)).timeDifferences = [] :=
  ⟨((C23_kinds_touch_own_bookkeeping _ (sampleOrder "ABC" .Trade 10 12 120)).1
      (by decide)).2.1.trans (by decide!),
    ((C23_kinds_touch_own_bookkeeping _ (sampleOrder "ABC" .ChangeToBid 9 12 120)).2.1
      (by decide)).2.1.trans (by decide!),
    ((C23_kinds_touch_own_bookkeeping _ (sampleOrder "ABC" .ChangeToAsk 9 13 120)).2.2
      (by decide)).1.trans (by decide!)⟩

/-- C24, the code at the failing input: 31 January 2015 at second 86399 and 1 February
2015 at second 0 are valid inputs, the first chronologically not later than the
second, read by `parse_date` from `20150131` and `20150201`; yet the time point of the
first is later than that of the second, both days having the same midnight, and two
trades at these times record the interval -86399. -/
theorem C24_month_boundary_out_of_order :
    specValidInput 2015 1 31 86399 ∧ specValidInput 2015 2 1 0 ∧
    specNotLater 2015 1 31 86399 2015 2 1 0 ∧
    DataParser.parse_date "20150131" = some [2015, 1, 31] ∧
    DataParser.parse_date "20150201" = some [2015, 2, 1] ∧
    DataParser.createTimePoint 2015 1 31 0 = DataParser.createTimePoint 2015 2 1 0 ∧
    ¬ (DataParser.createTimePoint 2015 1 31 86399 ≤ DataParser.createTimePoint 2015 2 1 0) ∧
    ((OrderBook.new "ABC").addOrders
      [sampleOrder "ABC" .Trade 10 11 (DataParser.createTimePoint 2015 1 31 86399),
       sampleOrder "ABC" .Trade 10 11 (DataParser.createTimePoint 2015 2 1 0)]
      ).timeDifferences = [-86399] := by
  refine ⟨?_, ?_, ?_, by decide!, by decide!, by decide!, by decide!, by decide!⟩
  · simp only [specValidInput, specDaysInMonth, specLeapYear]; norm_num
  · simp only [specValidInput, specDaysInMonth, specLeapYear]; norm_num
  · simp only [specNotLater]; norm_num

end OrderBookModel
